import Mathlib

/-!
Verification development for the zorsh schema-driven Borsh codec.

The TypeScript sources are embedded shallowly:

* `src/binary-io.ts` (BinaryWriter / BinaryReader): a write appending bytes to
  the growable buffer is modelled as the list of bytes it appends; the reader
  is modelled as a cursor over a byte list, realised as functions that consume
  bytes from the front of the list and return the remaining suffix.  DataView
  setters wrap their argument modulo 2 ^ width (ECMAScript ToUintN / ToBigUintN)
  and DataView getters throw a RangeError when fewer bytes remain than the
  operation needs; both behaviours are part of the model.
* the type-handler registry: the repository carries two registered handler
  sets.  The one in `src/registry.ts` (iteration-order sets and maps, no range
  checks) and the one bundled with `src/generator/reader.ts` (range-checked
  integers, NaN-checked f64, typed-array vec materialisation, sorted sets and
  maps).  The second set is the one exercised by the test suite; it is embedded
  as the recursive functions `writeVal` / `readVal` over the schema descriptor
  type `Ty`, and the set/map writers of the first set are embedded separately
  as `set0Write` / `map0Write`.

JavaScript numbers (doubles) are modelled by `JSNum`: every finite double is a
rational number, so a finite double is carried as an element of `ℚ`, with
separate constructors for the three non-finite values.  JavaScript bigints are
`Int`.  JavaScript strings are modelled by their UTF-8 image (`List Nat`): the
platform pair TextEncoder / TextDecoder is a bijection between well-formed
strings and their UTF-8 byte sequences, and `writeString` / `readString` of
`binary-io.ts` act on exactly that byte sequence.  IEEE float byte encoding
(DataView setFloat32 / setFloat64) is kept as an explicit function parameter
where it occurs; no theorem depends on the concrete float bit patterns.
-/

namespace Zorsh

/-! ## Binary primitives layer: little-endian byte strings -/

/-- Little-endian byte string of width `w` for the value `v`; callers wrap `v`
modulo `2 ^ (8 * w)` first, mirroring the DataView setters. -/
def leBytes : Nat → Nat → List Nat
  | 0, _ => []
  | w + 1, v => (v % 256) :: leBytes w (v / 256)

/-- Value of a little-endian byte string (mirror of `leBytes`). -/
def lePack : List Nat → Nat
  | [] => 0
  | b :: rest => b + 256 * lePack rest

/-- ECMAScript ToUintN / ToBigUintN on an integral argument: wrap into
`[0, 2 ^ (8 * w))`. -/
def wrapU (w : Nat) (v : Int) : Nat := (v % ((2 : Int) ^ (8 * w))).toNat

@[simp] theorem leBytes_length (w v : Nat) : (leBytes w v).length = w := by
  induction w generalizing v with
  | zero => rfl
  | succ w ih => simp [leBytes, ih]

theorem lePack_leBytes (w : Nat) : ∀ v : Nat, v < 2 ^ (8 * w) →
    lePack (leBytes w v) = v := by
  induction w with
  | zero =>
      intro v hv
      have hv0 : v = 0 := by simpa using hv
      subst hv0; rfl
  | succ w ih =>
      intro v hv
      have hdiv : v / 256 < 2 ^ (8 * w) := by
        have h8 : (8 : Nat) * (w + 1) = 8 * w + 8 := by ring
        rw [h8, pow_add] at hv
        omega
      simp [leBytes, lePack, ih (v / 256) hdiv]
      omega

/-! ## BinaryWriter (src/binary-io.ts)

Each `write*` is modelled as the byte list that the call appends to the
internal buffer.  `getBuffer` returns the concatenation of everything written,
so a sequence of writes is the concatenation of these lists. -/

/-- `BinaryWriter.writeUint8`: DataView setUint8, little-endian is trivial. -/
def writeUint8 (v : Int) : List Nat := leBytes 1 (wrapU 1 v)

/-- `BinaryWriter.writeUint16`: DataView setUint16 little-endian. -/
def writeUint16 (v : Int) : List Nat := leBytes 2 (wrapU 2 v)

/-- `BinaryWriter.writeUint32`: DataView setUint32 little-endian. -/
def writeUint32 (v : Int) : List Nat := leBytes 4 (wrapU 4 v)

/-- `BinaryWriter.writeUint64`: DataView setBigUint64 little-endian. -/
def writeUint64 (v : Int) : List Nat := leBytes 8 (wrapU 8 v)

/-- `BinaryWriter.writeInt8`: DataView setInt8 wraps modulo `2 ^ 8` exactly as
setUint8 does, producing the two-complement byte. -/
def writeInt8 (v : Int) : List Nat := leBytes 1 (wrapU 1 v)

/-- `BinaryWriter.writeInt16`: DataView setInt16 little-endian. -/
def writeInt16 (v : Int) : List Nat := leBytes 2 (wrapU 2 v)

/-- `BinaryWriter.writeInt32`: DataView setInt32 little-endian. -/
def writeInt32 (v : Int) : List Nat := leBytes 4 (wrapU 4 v)

/-- `BinaryWriter.writeInt64`: DataView setBigInt64 little-endian (ToBigInt64
wraps modulo `2 ^ 64`, which yields the same bytes as ToBigUint64). -/
def writeInt64 (v : Int) : List Nat := leBytes 8 (wrapU 8 v)

/-- `BinaryWriter.writeUint128`: `low = value & 0xFFFFFFFFFFFFFFFF` is
`value % 2 ^ 64` (BigInt `&` uses two-complement semantics, and `%` on `Int`
is Euclidean, hence non-negative), `high = value >> 64` is floor division,
which for the positive divisor `2 ^ 64` is Euclidean division `/`.  The low
limb is written first, then the high limb. -/
def writeUint128 (v : Int) : List Nat :=
  writeUint64 (v % (2 : Int) ^ 64) ++ writeUint64 (v / (2 : Int) ^ 64)

/-- `BinaryWriter.writeInt128`: same limb split as `writeUint128`, written with
`writeInt64`, which produces the same wrapped bytes. -/
def writeInt128 (v : Int) : List Nat :=
  writeInt64 (v % (2 : Int) ^ 64) ++ writeInt64 (v / (2 : Int) ^ 64)

/-- `BinaryWriter.writeString` acting on the UTF-8 image of the string: a
4-byte little-endian byte-length prefix followed by the UTF-8 bytes. -/
def writeString (utf8 : List Nat) : List Nat :=
  writeUint32 (utf8.length : Int) ++ utf8

/-! ### BinaryWriter.ensureCapacity (claim C10)

`ensureCapacity` computes `requiredSize = offset + additionalBytes` and, if the
current buffer is too small, doubles `newSize` starting from the current buffer
length until `requiredSize <= newSize`.  The loop is embedded with explicit
fuel: `ensureCapacityLoop fuel newSize requiredSize` returns `some finalSize`
if the source loop exits within `fuel` iterations and `none` otherwise. -/
def ensureCapacityLoop : Nat → Nat → Nat → Option Nat
  | 0, newSize, requiredSize => if newSize < requiredSize then none else some newSize
  | fuel + 1, newSize, requiredSize =>
      if newSize < requiredSize then ensureCapacityLoop fuel (newSize * 2) requiredSize
      else some newSize

/-- Default `initialSize` of the `BinaryWriter` constructor. -/
def binaryWriterDefaultSize : Nat := 1024

theorem ensureCapacityLoop_pos (fuel cap req : Nat) (hcap : 1 ≤ cap)
    (hfuel : req ≤ cap + fuel) :
    ∃ n, ensureCapacityLoop fuel cap req = some n ∧ req ≤ n := by
  induction fuel generalizing cap with
  | zero =>
      refine ⟨cap, ?_, by omega⟩
      have h : ¬ cap < req := by omega
      simp [ensureCapacityLoop, h]
  | succ fuel ih =>
      by_cases h : cap < req
      · have := ih (cap * 2) (by omega) (by omega)
        simpa [ensureCapacityLoop, h] using this
      · exact ⟨cap, by simp [ensureCapacityLoop, h], by omega⟩

theorem ensureCapacityLoop_zero (fuel req : Nat) (hreq : 1 ≤ req) :
    ensureCapacityLoop fuel 0 req = none := by
  induction fuel with
  | zero =>
      have h : 0 < req := by omega
      simp [ensureCapacityLoop, h]
  | succ fuel ih => simpa [ensureCapacityLoop, show 0 < req by omega] using ih

/-! ## BinaryReader (src/binary-io.ts)

The reader is a cursor over an immutable byte list; a read consumes bytes from
the front and returns the rest.  DataView getters throw a RangeError when the
requested width extends past the end of the buffer; this surfaces as
`Except.error`. -/

/-- DataView getter access of `w` bytes: out-of-bounds offsets raise a
RangeError. -/
def readBytes (w : Nat) (l : List Nat) : Except String (List Nat × List Nat) :=
  if w ≤ l.length then .ok (l.take w, l.drop w)
  else .error "Offset is outside the bounds of the DataView"

/-- Fixed-width unsigned read (readUint8 / 16 / 32 / 64 for w = 1, 2, 4, 8). -/
def readUintW (w : Nat) (l : List Nat) : Except String (Nat × List Nat) :=
  (readBytes w l).map (fun p => (lePack p.1, p.2))

/-- Fixed-width signed read: the DataView getInt* family decodes the
two-complement value of the same bytes. -/
def readIntW (w : Nat) (l : List Nat) : Except String (Int × List Nat) :=
  (readBytes w l).map (fun p =>
    (if lePack p.1 < 2 ^ (8 * w - 1) then (lePack p.1 : Int)
     else (lePack p.1 : Int) - (2 : Int) ^ (8 * w), p.2))

/-- `BinaryReader.readUint8`. -/
def readUint8 (l : List Nat) : Except String (Nat × List Nat) := readUintW 1 l

/-- `BinaryReader.readUint16`. -/
def readUint16 (l : List Nat) : Except String (Nat × List Nat) := readUintW 2 l

/-- `BinaryReader.readUint32`. -/
def readUint32 (l : List Nat) : Except String (Nat × List Nat) := readUintW 4 l

/-- `BinaryReader.readUint64`. -/
def readUint64 (l : List Nat) : Except String (Nat × List Nat) := readUintW 8 l

/-- `BinaryReader.readInt8`. -/
def readInt8 (l : List Nat) : Except String (Int × List Nat) := readIntW 1 l

/-- `BinaryReader.readInt16`. -/
def readInt16 (l : List Nat) : Except String (Int × List Nat) := readIntW 2 l

/-- `BinaryReader.readInt32`. -/
def readInt32 (l : List Nat) : Except String (Int × List Nat) := readIntW 4 l

/-- `BinaryReader.readInt64`. -/
def readInt64 (l : List Nat) : Except String (Int × List Nat) := readIntW 8 l

/-- `BinaryReader.readUint128`: low 64-bit limb read unsigned, then high limb
read unsigned; `(high << 64) | low` on non-negative values with
`low < 2 ^ 64` is `high * 2 ^ 64 + low`. -/
def readUint128 (l : List Nat) : Except String (Nat × List Nat) := do
  let (low, l) ← readUint64 l
  let (high, l) ← readUint64 l
  .ok (high * 2 ^ 64 + low, l)

/-- `BinaryReader.readInt128`: the low limb is read unsigned to preserve the
bit pattern, the high limb is read signed; for `0 ≤ low < 2 ^ 64` the BigInt
expression `(high << 64) | low` equals `high * 2 ^ 64 + low`. -/
def readInt128 (l : List Nat) : Except String (Int × List Nat) := do
  let (low, l) ← readUint64 l
  let (high, l) ← readInt64 l
  .ok (high * (2 : Int) ^ 64 + (low : Int), l)

/-- `BinaryReader.readString`: reads the u32 byte-length prefix, then takes
`length` bytes with `buffer.slice(offset, offset + length)`.  JavaScript
`slice` clamps the end index to the buffer length, so fewer bytes than the
prefix declares are returned silently; TextDecoder in its default non-fatal
mode never throws.  The decoded string is modelled by its UTF-8 image, which is
exactly the sliced byte list. -/
def readString (l : List Nat) : Except String (List Nat × List Nat) := do
  let (length, l) ← readUint32 l
  .ok (l.take length, l.drop length)

/-! ### Reader lemmas -/

theorem readBytes_append (w : Nat) (pre rest : List Nat) (h : pre.length = w) :
    readBytes w (pre ++ rest) = .ok (pre, rest) := by
  subst h
  simp [readBytes, List.take_left, List.drop_left]

theorem readUintW_leBytes (w v : Nat) (rest : List Nat) (hv : v < 2 ^ (8 * w)) :
    readUintW w (leBytes w v ++ rest) = .ok (v, rest) := by
  rw [readUintW, readBytes_append w _ rest (leBytes_length w v)]
  simp [Except.map, lePack_leBytes w v hv]

theorem intPow_toNat (k : Nat) : ((2 : Int) ^ k).toNat = 2 ^ k := by
  rw [show (2 : Int) ^ k = ((2 ^ k : Nat) : Int) by push_cast; ring, Int.toNat_natCast]

theorem wrapU_lt (w : Nat) (v : Int) : wrapU w v < 2 ^ (8 * w) := by
  have hpos : (0 : Int) < (2 : Int) ^ (8 * w) := by positivity
  have h := Int.emod_lt_of_pos v hpos
  have h0 := Int.emod_nonneg v (by positivity : ((2 : Int) ^ (8 * w)) ≠ 0)
  rw [wrapU]
  have hcast := intPow_toNat (8 * w)
  omega

theorem wrapU_coe (w : Nat) (v : Int) : (wrapU w v : Int) = v % (2 : Int) ^ (8 * w) := by
  have h0 := Int.emod_nonneg v (show ((2 : Int) ^ (8 * w)) ≠ 0 by positivity)
  simp [wrapU, Int.toNat_of_nonneg h0]

/-- Unsigned round trip at the writer/reader level. -/
theorem readUintW_writeU (w : Nat) (v : Int) (rest : List Nat)
    (h0 : 0 ≤ v) (h1 : v < (2 : Int) ^ (8 * w)) :
    readUintW w (leBytes w (wrapU w v) ++ rest) = .ok (v.toNat, rest) := by
  have hcast : ((2 : Nat) ^ (8 * w) : Int) = (2 : Int) ^ (8 * w) := by push_cast; ring
  have hw : wrapU w v = v.toNat := by
    have hc := wrapU_coe w v
    have hmod : v % (2 : Int) ^ (8 * w) = v := Int.emod_eq_of_lt h0 h1
    omega
  rw [hw]
  refine readUintW_leBytes w v.toNat rest ?_
  have : (v.toNat : Int) < ((2 : Nat) ^ (8 * w) : Int) := by omega
  exact_mod_cast this

/-- Signed round trip at the writer/reader level: the two-complement wrap of
`x` decodes back to `x`. -/
theorem readIntW_writeI (w : Nat) (x : Int) (rest : List Nat) (hw : 1 ≤ w)
    (h0 : -((2 : Int) ^ (8 * w - 1)) ≤ x) (h1 : x < (2 : Int) ^ (8 * w - 1)) :
    readIntW w (leBytes w (wrapU w x) ++ rest) = .ok (x, rest) := by
  obtain ⟨m, hm⟩ : ∃ m, 8 * w = m + 1 := ⟨8 * w - 1, by omega⟩
  rw [readIntW, readBytes_append w _ rest (leBytes_length w _)]
  have hlt := wrapU_lt w x
  rw [Except.map]
  simp only [lePack_leBytes w _ hlt]
  have hcoe := wrapU_coe w x
  rw [hm] at h0 h1 hlt hcoe ⊢
  simp only [Nat.add_sub_cancel] at h0 h1 ⊢
  have hpow : (2 : Int) ^ (m + 1) = 2 ^ m * 2 := pow_succ 2 m
  have hpowN : (2 : Nat) ^ (m + 1) = 2 ^ m * 2 := pow_succ 2 m
  have hpow_cast : ((2 : Nat) ^ m : Int) = (2 : Int) ^ m := by push_cast; ring
  by_cases hx : 0 ≤ x
  · have hxmod : x % (2 : Int) ^ (m + 1) = x := by
      apply Int.emod_eq_of_lt hx; omega
    have hwx : (wrapU w x : Int) = x := by rw [hcoe, hxmod]
    have hlt2 : wrapU w x < 2 ^ m := by
      have h2 : (wrapU w x : Int) < ((2 : Nat) ^ m : Int) := by omega
      exact_mod_cast h2
    simp only [if_pos hlt2]
    simp only [Except.ok.injEq, Prod.mk.injEq, and_true]
    omega
  · have hxmod : x % (2 : Int) ^ (m + 1) = x + 2 ^ (m + 1) := by
      have h2 : (0 : Int) < (2 : Int) ^ (m + 1) := by positivity
      have h4 : (x + (2 : Int) ^ (m + 1) * 1) % (2 : Int) ^ (m + 1) =
          x % (2 : Int) ^ (m + 1) := @Int.add_mul_emod_self_left x _ 1
      rw [← Int.emod_eq_of_lt (by omega : (0 : Int) ≤ x + 2 ^ (m + 1))
        (by omega : x + (2 : Int) ^ (m + 1) < 2 ^ (m + 1))]
      rw [← h4]; ring_nf
    have hwx : (wrapU w x : Int) = x + 2 ^ (m + 1) := by rw [hcoe, hxmod]
    have hge : ¬ wrapU w x < 2 ^ m := by
      intro hcon
      have h3 : (wrapU w x : Int) < ((2 : Nat) ^ m : Int) := by exact_mod_cast hcon
      omega
    simp only [if_neg hge]
    simp only [Except.ok.injEq, Prod.mk.injEq, and_true]
    omega

/-! ## Claim C6: 128-bit limb encoding and decoding -/

theorem wrapU_emod_self (v : Int) : wrapU 8 (v % (2 : Int) ^ 64) = wrapU 8 v := by
  have h : (8 : Nat) * 8 = 64 := by norm_num
  simp only [wrapU, h]
  rw [Int.emod_emod_of_dvd v (dvd_refl _)]

@[simp] theorem exceptBindOk {ε α β : Type} (a : α) (f : α → Except ε β) :
    (Except.ok a : Except ε α) >>= f = f a := rfl

@[simp] theorem exceptBindErr {ε α β : Type} (e : ε) (f : α → Except ε β) :
    (Except.error e : Except ε α) >>= f = .error e := rfl

/-- The wire layout of `writeInt128`: 8 little-endian bytes of the low limb
first, then 8 little-endian bytes of the high limb. -/
theorem writeInt128_limbs (v : Int) :
    writeInt128 v = leBytes 8 (wrapU 8 v) ++ leBytes 8 (wrapU 8 (v / (2 : Int) ^ 64)) := by
  simp only [writeInt128, writeInt64, wrapU_emod_self]

theorem readInt128_writeInt128 (v : Int) (rest : List Nat)
    (hlo : -((2 : Int) ^ 127) ≤ v) (hhi : v < (2 : Int) ^ 127) :
    readInt128 (writeInt128 v ++ rest) = .ok (v, rest) := by
  have hpow2 : (2 : Int) ^ 127 = 2 ^ 63 * 2 ^ 64 := by norm_num
  have hw8 : (8 : Nat) * 8 = 64 := by norm_num
  have hmod0 : (0 : Int) ≤ v % 2 ^ 64 := Int.emod_nonneg v (by positivity)
  have hmod1 : v % (2 : Int) ^ 64 < 2 ^ 64 := Int.emod_lt_of_pos v (by positivity)
  have hsplit : (2 : Int) ^ 64 * (v / 2 ^ 64) + v % 2 ^ 64 = v := Int.ediv_add_emod v _
  have hdivlo : -((2 : Int) ^ 63) ≤ v / 2 ^ 64 := by nlinarith
  have hdivhi : v / (2 : Int) ^ 64 < 2 ^ 63 := by nlinarith
  have harg : writeInt128 v ++ rest =
      leBytes 8 (wrapU 8 (v % (2 : Int) ^ 64)) ++
        (leBytes 8 (wrapU 8 (v / (2 : Int) ^ 64)) ++ rest) := by
    simp [writeInt128, writeInt64]
  rw [readInt128, harg, readUint64,
    readUintW_writeU 8 (v % 2 ^ 64) _ hmod0 (by rw [hw8]; exact hmod1)]
  simp only [exceptBindOk]
  rw [readInt64, readIntW_writeI 8 (v / 2 ^ 64) rest (by norm_num)
    (by rw [show (8 : Nat) * 8 - 1 = 63 by norm_num]; exact hdivlo)
    (by rw [show (8 : Nat) * 8 - 1 = 63 by norm_num]; exact hdivhi)]
  simp only [exceptBindOk, Except.ok.injEq, Prod.mk.injEq, and_true]
  rw [Int.toNat_of_nonneg hmod0]
  omega

theorem readUint128_writeUint128 (v : Int) (rest : List Nat)
    (h0 : 0 ≤ v) (h1 : v < (2 : Int) ^ 128) :
    readUint128 (writeUint128 v ++ rest) = .ok (v.toNat, rest) := by
  have hpow : (2 : Int) ^ 128 = 2 ^ 64 * 2 ^ 64 := by norm_num
  have hw8 : (8 : Nat) * 8 = 64 := by norm_num
  have hmod0 : (0 : Int) ≤ v % 2 ^ 64 := Int.emod_nonneg v (by positivity)
  have hmod1 : v % (2 : Int) ^ 64 < 2 ^ 64 := Int.emod_lt_of_pos v (by positivity)
  have hsplit : (2 : Int) ^ 64 * (v / 2 ^ 64) + v % 2 ^ 64 = v := Int.ediv_add_emod v _
  have hdiv0 : (0 : Int) ≤ v / 2 ^ 64 := Int.ediv_nonneg h0 (by positivity)
  have hdiv1 : v / (2 : Int) ^ 64 < 2 ^ 64 := by nlinarith
  have harg : writeUint128 v ++ rest =
      leBytes 8 (wrapU 8 (v % (2 : Int) ^ 64)) ++
        (leBytes 8 (wrapU 8 (v / (2 : Int) ^ 64)) ++ rest) := by
    simp [writeUint128, writeUint64]
  rw [readUint128, harg, readUint64,
    readUintW_writeU 8 (v % 2 ^ 64) _ hmod0 (by rw [hw8]; exact hmod1)]
  simp only [exceptBindOk]
  rw [readUint64, readUintW_writeU 8 (v / 2 ^ 64) rest hdiv0 (by rw [hw8]; exact hdiv1)]
  simp only [exceptBindOk, Except.ok.injEq, Prod.mk.injEq, and_true]
  omega

/-- C6: for every signed 128-bit integer, `writeInt128` emits the low 64-bit
limb first and the high limb second, each as 8 little-endian bytes, and
`readInt128` (low limb read unsigned, high limb read signed) returns exactly
the original value; likewise `readUint128` inverts `writeUint128` on the whole
unsigned 128-bit range. -/
theorem readWrite128_roundtrip :
    (∀ (v : Int) (rest : List Nat), -((2 : Int) ^ 127) ≤ v → v < (2 : Int) ^ 127 →
      writeInt128 v = leBytes 8 (wrapU 8 v) ++ leBytes 8 (wrapU 8 (v / (2 : Int) ^ 64)) ∧
      readInt128 (writeInt128 v ++ rest) = .ok (v, rest)) ∧
    (∀ (v : Int) (rest : List Nat), 0 ≤ v → v < (2 : Int) ^ 128 →
      readUint128 (writeUint128 v ++ rest) = .ok (v.toNat, rest)) :=
  ⟨fun v rest hlo hhi => ⟨writeInt128_limbs v, readInt128_writeInt128 v rest hlo hhi⟩,
   fun v rest h0 h1 => readUint128_writeUint128 v rest h0 h1⟩

/-- C6 witness: instantiation at `v = -1` (signed) and at the largest unsigned
value. -/
theorem readWrite128_roundtrip_witness :
    readInt128 (writeInt128 (-1) ++ [7]) = .ok (-1, [7]) ∧
    readUint128 (writeUint128 ((2 : Int) ^ 128 - 1) ++ []) =
      .ok (((2 : Int) ^ 128 - 1).toNat, []) :=
  ⟨(readWrite128_roundtrip.1 (-1) [7] (by norm_num) (by norm_num)).2,
   readWrite128_roundtrip.2 ((2 : Int) ^ 128 - 1) [] (by norm_num) (by norm_num)⟩

/-! ## Claim C7: reader out-of-bounds behaviour -/

/-- C7 counterexample: a buffer whose u32 string-length prefix declares 5
payload bytes but which contains none.  `readString` does not fail: JavaScript
`slice` clamps, so the read succeeds and returns the empty payload. -/
theorem readString_truncation_counterexample :
    readString [5, 0, 0, 0] = .ok ([], []) ∧
    (readString [5, 0, 0, 0]).isOk = true := by
  constructor <;> rfl

/-- C7 (amended): every fixed-width read fails with an out-of-bounds error when
fewer bytes remain than the operation needs (this includes the u32 length
prefix of `readString`), but the payload portion of `readString` is silently
truncated: whenever the buffer holds fewer payload bytes than the prefix
declares, the read succeeds and returns exactly the bytes that remain. -/
theorem reader_oob_amended :
    (∀ (w : Nat) (l : List Nat), l.length < w →
      readUintW w l = .error "Offset is outside the bounds of the DataView") ∧
    (∀ (w : Nat) (l : List Nat), l.length < w →
      readIntW w l = .error "Offset is outside the bounds of the DataView") ∧
    (∀ l : List Nat, l.length < 16 → (readUint128 l).isOk = false) ∧
    (∀ l : List Nat, l.length < 16 → (readInt128 l).isOk = false) ∧
    (∀ l : List Nat, l.length < 4 →
      readString l = .error "Offset is outside the bounds of the DataView") ∧
    (∀ (n : Nat) (payload : List Nat), payload.length < n → n < 2 ^ 32 →
      readString (writeUint32 (n : Int) ++ payload) = .ok (payload, [])) := by
  have hfail : ∀ (w : Nat) (l : List Nat), l.length < w →
      readBytes w l = .error "Offset is outside the bounds of the DataView" := by
    intro w l h
    simp [readBytes]; omega
  refine ⟨?_, ?_, ?_, ?_, ?_, ?_⟩
  · intro w l h; simp [readUintW, hfail w l h, Except.map]
  · intro w l h; simp [readIntW, hfail w l h, Except.map]
  · intro l h
    rw [readUint128]
    by_cases h8 : l.length < 8
    · simp [readUint64, readUintW, hfail 8 l h8, Except.map, Except.isOk, Except.toBool]
    · rw [readUint64, readUintW, readBytes, if_pos (by omega)]
      have hdrop : (l.drop 8).length < 8 := by simp; omega
      simp [Except.map, readUint64, readUintW, hfail 8 (l.drop 8) hdrop, Except.isOk, Except.toBool]
  · intro l h
    rw [readInt128]
    by_cases h8 : l.length < 8
    · simp [readUint64, readUintW, hfail 8 l h8, Except.map, Except.isOk, Except.toBool]
    · rw [readUint64, readUintW, readBytes, if_pos (by omega)]
      have hdrop : (l.drop 8).length < 8 := by simp; omega
      simp [Except.map, readInt64, readIntW, hfail 8 (l.drop 8) hdrop, Except.isOk, Except.toBool]
  · intro l h
    simp [readString, readUint32, readUintW, hfail 4 l h, Except.map]
  · intro n payload hlen hn
    rw [readString, readUint32, writeUint32,
      readUintW_writeU 4 (n : Int) payload (by omega)
        (by exact_mod_cast show (n : Int) < ((2 ^ 32 : Nat) : Int) by exact_mod_cast hn)]
    simp only [Int.toNat_natCast, exceptBindOk]
    rw [List.take_of_length_le (by omega), List.drop_eq_nil_of_le (by omega)]

/-- C7 witness: a concrete short fixed-width read fails; a concrete truncated
string payload is returned silently. -/
theorem reader_oob_amended_witness :
    readUintW 4 [1, 2] = .error "Offset is outside the bounds of the DataView" ∧
    readString (writeUint32 (5 : Int) ++ [9]) = .ok ([9], []) :=
  ⟨reader_oob_amended.1 4 [1, 2] (by norm_num),
   reader_oob_amended.2.2.2.2.2 5 [9] (by norm_num) (by norm_num)⟩

/-! ## Claim C10: termination of the capacity-doubling loop -/

/-- C10: for every writer whose current capacity is at least 1 (the public
constructor defaults to 1024), the capacity-doubling loop of `ensureCapacity`
reaches a size of at least the required size within finitely many iterations;
for capacity 0 the loop `newSize *= 2` never terminates as soon as one more
byte is required. -/
theorem ensureCapacity_termination :
    (∀ cap req : Nat, 1 ≤ cap →
      ∃ fuel n, ensureCapacityLoop fuel cap req = some n ∧ req ≤ n) ∧
    (∀ req fuel : Nat, 1 ≤ req → ensureCapacityLoop fuel 0 req = none) ∧
    1 ≤ binaryWriterDefaultSize := by
  refine ⟨?_, ?_, by norm_num [binaryWriterDefaultSize]⟩
  · intro cap req hcap
    obtain ⟨n, hn, hge⟩ := ensureCapacityLoop_pos req cap req hcap (by omega)
    exact ⟨req, n, hn, hge⟩
  · intro req fuel hreq
    exact ensureCapacityLoop_zero fuel req hreq

/-- C10 witness: a default-sized writer accepting a 2000-byte requirement, and
the non-terminating zero-capacity loop observed at every fuel bound. -/
theorem ensureCapacity_termination_witness :
    (∃ fuel n, ensureCapacityLoop fuel 1024 2000 = some n ∧ 2000 ≤ n) ∧
    ensureCapacityLoop 1000 0 1 = none :=
  ⟨ensureCapacity_termination.1 1024 2000 (by norm_num),
   ensureCapacity_termination.2.1 1 1000 (by norm_num)⟩

/-! ## The JavaScript value model

`JSNum` models a JavaScript number: every finite double is a (dyadic) rational
number; the three non-finite values get their own constructors.  `JSVal`
models the runtime values the handlers receive: numbers, bigints, strings
(by their UTF-8 image), plain arrays, typed arrays, Sets, Maps, plain objects
(`record`, a key-unique property list in insertion order), `null` and
`undefined`. -/

inductive JSNum where
  | fin (q : ℚ)
  | inf
  | negInf
  | nan
deriving DecidableEq, Repr

/-- `Number.isNaN`. -/
def JSNum.isNaN : JSNum → Bool
  | .nan => true
  | _ => false

/-- `Number.isInteger`: true exactly for finite integral doubles. -/
def jsIsInteger : JSNum → Bool
  | .fin q => q.den == 1
  | _ => false

/-- The JavaScript `<` comparison on numbers: any comparison involving NaN is
false; the infinities compare in the usual IEEE order. -/
def jsLt : JSNum → JSNum → Bool
  | .fin a, .fin b => a < b
  | .fin _, .inf => true
  | .negInf, .fin _ => true
  | .negInf, .inf => true
  | _, _ => false

/-- ECMAScript ToIntN / ToUintN modular part on a number: truncate toward zero
(the wrap happens in the writer); NaN and the infinities convert to 0. -/
def jsNumToInt : JSNum → Int
  | .fin q => q.num.tdiv (q.den : Int)
  | _ => 0

/-- Element kinds of the typed arrays materialised by the vec read handler
(`Uint8Array` ... `BigInt64Array`; the float kinds are outside this
development, see the module comment). -/
inductive TKind where
  | tu8 | tu16 | tu32 | ti8 | ti16 | ti32 | ti64
deriving DecidableEq, Repr

inductive JSVal where
  | num (x : JSNum)
  | big (n : Int)
  | str (utf8 : List Nat)
  | arr (elems : List JSVal)
  | typed (k : TKind) (contents : List Int)
  | setV (elems : List JSVal)
  | mapV (entries : List (JSVal × JSVal))
  | record (props : List (String × JSVal))
  | nullV
  | undef

/-- The value range a typed array of kind `k` stores. -/
def inKindRange (k : TKind) (n : Int) : Bool :=
  match k with
  | .tu8 => 0 ≤ n ∧ n < 2 ^ 8
  | .tu16 => 0 ≤ n ∧ n < 2 ^ 16
  | .tu32 => 0 ≤ n ∧ n < 2 ^ 32
  | .ti8 => -(2 ^ 7) ≤ n ∧ n < 2 ^ 7
  | .ti16 => -(2 ^ 15) ≤ n ∧ n < 2 ^ 15
  | .ti32 => -(2 ^ 31) ≤ n ∧ n < 2 ^ 31
  | .ti64 => -(2 ^ 63) ≤ n ∧ n < 2 ^ 63

/-- The wrap a typed-array store applies (ToUint8 ... ToBigInt64 on an
integral argument). -/
def wrapKind (k : TKind) (x : Int) : Int :=
  match k with
  | .tu8 => x % 2 ^ 8
  | .tu16 => x % 2 ^ 16
  | .tu32 => x % 2 ^ 32
  | .ti8 => (x + 2 ^ 7) % 2 ^ 8 - 2 ^ 7
  | .ti16 => (x + 2 ^ 15) % 2 ^ 16 - 2 ^ 15
  | .ti32 => (x + 2 ^ 31) % 2 ^ 32 - 2 ^ 31
  | .ti64 => (x + 2 ^ 63) % 2 ^ 64 - 2 ^ 63

/-- Iterating a typed array yields numbers, except for `BigInt64Array`, which
yields bigints. -/
def tkindVal (k : TKind) (n : Int) : JSVal :=
  match k with
  | .ti64 => .big n
  | _ => .num (.fin (n : ℚ))

/-- The coercion a typed-array constructor applies to each element of the
source sequence (`new Uint8Array(values)` and friends).  On the read path the
elements are exactly the numbers produced by the element handler (bigints for
the `BigInt64Array` case); other shapes coerce through ToNumber and are
collapsed to 0 here, matching null and never occurring on the read path. -/
def typedContent (k : TKind) (v : JSVal) : Int :=
  match v with
  | .num x => wrapKind k (jsNumToInt x)
  | .big n => wrapKind k n
  | _ => 0

/-! ### ECMAScript ToString, for the default sort comparator

`Array.prototype.sort()` without a comparator orders elements by comparing
their ToString images as UTF-16 code-unit sequences.  The image is modelled as
a UTF-8 byte list (`strLit`); UTF-8 byte order coincides with code-point order,
which coincides with UTF-16 order on the basic multilingual plane — every
string a theorem of this file sorts is ASCII.  Non-integral finite doubles
render through the shortest-round-trip decimal algorithm of the platform; that
branch falls back to the rational literal rendering here and is not relied on
by any statement of this file. -/

/-- Byte image of a string literal: the code-point sequence, which coincides
with the UTF-8 byte sequence on the ASCII strings ToString produces here. -/
def strLit (s : String) : List Nat := s.data.map (fun c => c.toNat)

/-- The decimal rendering of an integer, as byte list (matches JavaScript for
every integral double and every bigint). -/
def intToStrBytes (n : Int) : List Nat := strLit (toString n)

/-- `join` of the numeric contents of a typed array. -/
def jsJoinInts : List Int → List Nat
  | [] => []
  | [n] => intToStrBytes n
  | n :: rest => intToStrBytes n ++ [44] ++ jsJoinInts rest

mutual

/-- ToString of a value (UTF-8 image). -/
def jsToStr : JSVal → List Nat
  | .num (.fin q) => if q.den == 1 then intToStrBytes q.num else strLit (toString q)
  | .num .inf => strLit "Infinity"
  | .num .negInf => strLit "-Infinity"
  | .num .nan => strLit "NaN"
  | .big n => intToStrBytes n
  | .str utf8 => utf8
  | .arr l => jsJoin l
  | .typed _ l => jsJoinInts l
  | .setV _ => strLit "[object Set]"
  | .mapV _ => strLit "[object Map]"
  | .record _ => strLit "[object Object]"
  | .nullV => strLit "null"
  | .undef => strLit "undefined"

/-- `Array.prototype.join` with separator `","`: null and undefined elements
render as the empty string. -/
def jsJoin : List JSVal → List Nat
  | [] => []
  | [x] => jsJoinElem x
  | x :: rest => jsJoinElem x ++ [44] ++ jsJoin rest

/-- One element of a join. -/
def jsJoinElem : JSVal → List Nat
  | .nullV => []
  | .undef => []
  | v => jsToStr v

end

/-- Lexicographic order on code sequences: the JavaScript `<` on strings. -/
def bytesLt : List Nat → List Nat → Bool
  | [], [] => false
  | [], _ :: _ => true
  | _ :: _, [] => false
  | a :: as, b :: bs => if a < b then true else if b < a then false else bytesLt as bs

/-- The default sort comparator of `Array.prototype.sort()`: `a` may precede
`b` unless ToString of `b` is strictly smaller.  With a stable merge sort this
reproduces the sort order of the JavaScript runtime. -/
def jsLeVal (a b : JSVal) : Bool := !(bytesLt (jsToStr b) (jsToStr a))

/-- `Array.from(value).sort()` in the set handler. -/
def jsSortVals (l : List JSVal) : List JSVal := l.mergeSort jsLeVal

/-- ToString of a map entry `[key, value]` (an array of two elements). -/
def entryKey (e : JSVal × JSVal) : List Nat :=
  jsJoinElem e.1 ++ [44] ++ jsJoinElem e.2

def jsLeEntry (a b : JSVal × JSVal) : Bool := !(bytesLt (entryKey b) (entryKey a))

/-- `Array.from(value.entries()).sort()` in the map handler. -/
def jsSortEntries (l : List (JSVal × JSVal)) : List (JSVal × JSVal) :=
  l.mergeSort jsLeEntry

/-! ### SameValueZero, Set and Map reconstruction -/

/-- SameValueZero on numbers: NaN equals NaN. -/
def jsNumSVZ : JSNum → JSNum → Bool
  | .fin a, .fin b => a == b
  | .inf, .inf => true
  | .negInf, .negInf => true
  | .nan, .nan => true
  | _, _ => false

/-- SameValueZero, the equality used by Set membership and Map keys.
Primitives compare by value; objects (arrays, typed arrays, Sets, Maps, plain
objects) compare by reference, and the values reconstructed by a read are
freshly allocated, so two composite values are never identified. -/
def svz : JSVal → JSVal → Bool
  | .num a, .num b => jsNumSVZ a b
  | .big a, .big b => a == b
  | .str a, .str b => a == b
  | .nullV, .nullV => true
  | .undef, .undef => true
  | _, _ => false

/-- `new Set(items)`: insertion order, keeping the first occurrence under
SameValueZero. -/
def dedupSVZ : List JSVal → List JSVal
  | [] => []
  | x :: xs => x :: dedupSVZ (xs.filter (fun y => !(svz x y)))
termination_by l => l.length
decreasing_by
  simp only [List.length_cons]
  have := List.length_filter_le (fun y => !(svz x y)) xs
  omega

/-- `Map.prototype.set`: an existing SameValueZero-equal key keeps its position
and original key object and gets the new value; otherwise the entry is
appended. -/
def mapUpsert : List (JSVal × JSVal) → JSVal → JSVal → List (JSVal × JSVal)
  | [], k, v => [(k, v)]
  | (k0, v0) :: rest, k, v =>
      if svz k0 k then (k0, v) :: rest else (k0, v0) :: mapUpsert rest k v

/-- `new Map(entries)`. -/
def mapFromEntries (l : List (JSVal × JSVal)) : List (JSVal × JSVal) :=
  l.foldl (fun acc e => mapUpsert acc e.1 e.2) []

/-- Property access `value[name]` on an object modelled as its key-unique
property list; a missing property is `undefined`. -/
def lookupProp : List (String × JSVal) → String → JSVal
  | [], _ => .undef
  | (k, v) :: rest, name => if k == name then v else lookupProp rest name

/-- The test `value === null` of the option handler. -/
def isNullV : JSVal → Bool
  | .nullV => true
  | _ => false

/-! ## The range-checked primitive handlers (src/generator/reader.ts) -/

/-- u8 handler write. -/
def u8Write (v : JSNum) : Except String (List Nat) :=
  if jsLt v (.fin 0) || jsLt (.fin 255) v || !(jsIsInteger v) then
    .error "Value out of range for u8"
  else .ok (writeUint8 (jsNumToInt v))

/-- u16 handler write. -/
def u16Write (v : JSNum) : Except String (List Nat) :=
  if jsLt v (.fin 0) || jsLt (.fin 65535) v || !(jsIsInteger v) then
    .error "Value out of range for u16"
  else .ok (writeUint16 (jsNumToInt v))

/-- u32 handler write. -/
def u32Write (v : JSNum) : Except String (List Nat) :=
  if jsLt v (.fin 0) || jsLt (.fin 4294967295) v || !(jsIsInteger v) then
    .error "Value out of range for u32"
  else .ok (writeUint32 (jsNumToInt v))

/-- i8 handler write. -/
def i8Write (v : JSNum) : Except String (List Nat) :=
  if jsLt v (.fin (-128)) || jsLt (.fin 127) v || !(jsIsInteger v) then
    .error "Value out of range for i8"
  else .ok (writeInt8 (jsNumToInt v))

/-- i16 handler write. -/
def i16Write (v : JSNum) : Except String (List Nat) :=
  if jsLt v (.fin (-32768)) || jsLt (.fin 32767) v || !(jsIsInteger v) then
    .error "Value out of range for i16"
  else .ok (writeInt16 (jsNumToInt v))

/-- i32 handler write. -/
def i32Write (v : JSNum) : Except String (List Nat) :=
  if jsLt v (.fin (-2147483648)) || jsLt (.fin 2147483647) v || !(jsIsInteger v) then
    .error "Value out of range for i32"
  else .ok (writeInt32 (jsNumToInt v))

/-- u64 handler write (bigint valued). -/
def u64Write (v : Int) : Except String (List Nat) :=
  if v < 0 ∨ v > 18446744073709551615 then .error "Value out of range for u64"
  else .ok (writeUint64 v)

/-- u128 handler write (bigint valued). -/
def u128Write (v : Int) : Except String (List Nat) :=
  if v < 0 ∨ v > 340282366920938463463374607431768211455 then
    .error "Value out of range for u128"
  else .ok (writeUint128 v)

/-- i64 handler write (bigint valued). -/
def i64Write (v : Int) : Except String (List Nat) :=
  if v < -9223372036854775808 ∨ v > 9223372036854775807 then
    .error "Value out of range for i64"
  else .ok (writeInt64 v)

/-- i128 handler write (bigint valued). -/
def i128Write (v : Int) : Except String (List Nat) :=
  if v < -170141183460469231731687303715884105728 ∨
      v > 170141183460469231731687303715884105727 then
    .error "Value out of range for i128"
  else .ok (writeInt128 v)

/-- f32 handler write: no check of any kind, the IEEE binary32 encoding of the
value (a platform function, kept as the parameter `enc`) is written even for
NaN. -/
def f32Write (enc : JSNum → List Nat) (v : JSNum) : Except String (List Nat) :=
  .ok (enc v)

/-- f64 handler write: rejects NaN before writing, then writes the IEEE
binary64 encoding (platform function `enc`). -/
def f64Write (enc : JSNum → List Nat) (v : JSNum) : Except String (List Nat) :=
  if v.isNaN then
    .error "For portability reasons we do not allow serializing NaN values."
  else .ok (enc v)

/-! ## Schema descriptors

A schema descriptor is a type tag plus a tag-specific options tree
(`src/schema.ts`); the handlers receive the options.  The tag/options pairs
are fused into one inductive: each constructor is one type tag carrying its
options.  Variants of an `enum` carry their explicit `index` field, exactly as
the `b.enum` builder stores it.  The tags `f32`, `f64` (platform float
encoding) and `bool` (no registered handler, claim C5) are outside this
grammar; `nativeEnum` is not needed by any claim. -/

inductive Ty where
  | u8 | u16 | u32 | u64 | u128
  | i8 | i16 | i32 | i64 | i128
  | str
  | unit
  | vec (elem : Ty)
  | array (elem : Ty) (length : Nat)
  | set (elem : Ty)
  | map (key : Ty) (value : Ty)
  | opt (value : Ty)
  | struct (fields : List (String × Ty))
  | enum (variants : List (Nat × String × Ty))
  | tup (elems : List Ty)

/-- `b.enum` of `src/schema.ts`: variants are numbered 0-based in declaration
order (`Object.entries(variants).map(([name, schema], index) => ...)`). -/
def bEnum (variants : List (String × Ty)) : Ty :=
  .enum (variants.enum.map (fun p => (p.1, p.2.1, p.2.2)))

/-- The check `variant.type !== "unit"` of the enum handler. -/
def isUnitTy : Ty → Bool
  | .unit => true
  | _ => false

/-- The `switch (elementType)` of the vec read handler: fixed-width numeric
element tags materialise as the matching typed array (the `f32` / `f64` cases
of the source switch are outside this grammar); `u64`, `u128`, `i128` and all
non-numeric tags fall through to the generic array. -/
def numericKindOf : Ty → Option TKind
  | .u8 => some .tu8
  | .u16 => some .tu16
  | .u32 => some .tu32
  | .i8 => some .ti8
  | .i16 => some .ti16
  | .i32 => some .ti32
  | .i64 => some .ti64
  | _ => none

/-- Typed-array materialisation of the values decoded by a vec read. -/
def materializeVec (t : Ty) (vals : List JSVal) : JSVal :=
  match numericKindOf t with
  | some k => .typed k (vals.map (typedContent k))
  | none => .arr vals

/-! ## The recursive handlers (the registry of src/generator/reader.ts)

`writeVal t v` is `registry.getHandler(tag).write(writer, value, options)`:
it returns the bytes the call appends to the writer, or the error it throws.
`readVal t l` is the matching `read(reader, options)`, returning the decoded
value and the unconsumed suffix of the buffer.  Dispatch by tag string through
the registry map becomes pattern matching on `Ty`. -/

mutual

/-- Handler write: one arm per registered tag.  Inputs whose JavaScript run
would throw a TypeError inside the handler (for example a plain object given
to the vec handler, or a number given to a bigint handler, which setBigUint64
rejects) are collapsed to `Except.error`. -/
def writeVal : Ty → JSVal → Except String (List Nat)
  | .u8, .num x => u8Write x
  | .u8, _ => .error "Value out of range for u8"
  | .u16, .num x => u16Write x
  | .u16, _ => .error "Value out of range for u16"
  | .u32, .num x => u32Write x
  | .u32, _ => .error "Value out of range for u32"
  | .u64, .big n => u64Write n
  | .u64, _ => .error "Value out of range for u64"
  | .u128, .big n => u128Write n
  | .u128, _ => .error "Value out of range for u128"
  | .i8, .num x => i8Write x
  | .i8, _ => .error "Value out of range for i8"
  | .i16, .num x => i16Write x
  | .i16, _ => .error "Value out of range for i16"
  | .i32, .num x => i32Write x
  | .i32, _ => .error "Value out of range for i32"
  | .i64, .big n => i64Write n
  | .i64, _ => .error "Value out of range for i64"
  | .i128, .big n => i128Write n
  | .i128, _ => .error "Value out of range for i128"
  | .str, v => .ok (writeString (jsToStr v))
  | .unit, _ => .ok []
  | .vec t, .arr l => do
      let bs ← writeElems t l
      .ok (writeUint32 (l.length : Int) ++ bs)
  | .vec t, .typed k l => do
      let bs ← writeElems t (l.map (tkindVal k))
      .ok (writeUint32 (l.length : Int) ++ bs)
  | .vec _, _ => .error "value is not a sequence"
  | .array t len, .arr l =>
      if l.length ≠ len then .error "Array length mismatch"
      else writeElems t l
  | .array t len, .typed k l =>
      if l.length ≠ len then .error "Array length mismatch"
      else writeElems t (l.map (tkindVal k))
  | .array _ _, _ => .error "value is not a sequence"
  | .set t, .setV l => do
      let bs ← writeElems t (jsSortVals l)
      .ok (writeUint32 (l.length : Int) ++ bs)
  | .set _, _ => .error "value is not a Set"
  | .map kt vt, .mapV entries => do
      let bs ← writeEntries kt vt (jsSortEntries entries)
      .ok (writeUint32 (entries.length : Int) ++ bs)
  | .map _ _, _ => .error "value is not a Map"
  | .opt t, v =>
      if isNullV v then .ok (writeUint8 0)
      else do
        let bs ← writeVal t v
        .ok (writeUint8 1 ++ bs)
  | .struct fields, .record props => writeFields fields props
  | .struct fields, _ => writeFields fields []
  | .enum vs, .record ((name, payload) :: _) => writeVariantByName vs name payload
  | .enum _, _ => .error "Unknown enum variant: undefined"
  | .tup ts, .arr l =>
      if l.length ≠ ts.length then .error "Tuple length mismatch"
      else writeTupItems ts l
  | .tup ts, .typed k l =>
      if l.length ≠ ts.length then .error "Tuple length mismatch"
      else writeTupItems ts (l.map (tkindVal k))
  | .tup _, _ => .error "value is not a sequence"
termination_by t _ => (sizeOf t, 1, 0)

/-- One element after another through the element handler (the write loops of
the vec / array / set handlers). -/
def writeElems : Ty → List JSVal → Except String (List Nat)
  | _, [] => .ok []
  | t, x :: xs => do
      let b ← writeVal t x
      let bs ← writeElems t xs
      .ok (b ++ bs)
termination_by t l => (sizeOf t, 2, sizeOf l)

/-- The struct write loop: for each declared field, in declaration order,
fetch `value[field]` by name and write it through the field handler. -/
def writeFields : List (String × Ty) → List (String × JSVal) → Except String (List Nat)
  | [], _ => .ok []
  | (name, t) :: fs, props => do
      let b ← writeVal t (lookupProp props name)
      let bs ← writeFields fs props
      .ok (b ++ bs)
termination_by fs _ => (sizeOf fs, 0, 0)

/-- The map write loop: key then value per entry. -/
def writeEntries : Ty → Ty → List (JSVal × JSVal) → Except String (List Nat)
  | _, _, [] => .ok []
  | kt, vt, (k, v) :: rest => do
      let bk ← writeVal kt k
      let bv ← writeVal vt v
      let bs ← writeEntries kt vt rest
      .ok (bk ++ bv ++ bs)
termination_by kt vt l => (1 + sizeOf kt + sizeOf vt, 0, sizeOf l)

/-- The tuple write loop (after the arity check): each element through its
positional handler. -/
def writeTupItems : List Ty → List JSVal → Except String (List Nat)
  | [], _ => .ok []
  | _ :: _, [] => .error "Tuple length mismatch"
  | t :: ts, x :: xs => do
      let b ← writeVal t x
      let bs ← writeTupItems ts xs
      .ok (b ++ bs)
termination_by ts _ => (sizeOf ts, 0, 0)

/-- `options.variants.find((v) => v.name === variantName)` followed by the
variant write: one discriminator byte holding the found index, then the
payload unless the payload type is `unit`. -/
def writeVariantByName : List (Nat × String × Ty) → String → JSVal → Except String (List Nat)
  | [], name, _ => .error ("Unknown enum variant: " ++ name)
  | (idx, vname, t) :: rest, name, payload =>
      if vname == name then
        if isUnitTy t then .ok (writeUint8 (idx : Int))
        else do
          let bs ← writeVal t payload
          .ok (writeUint8 (idx : Int) ++ bs)
      else writeVariantByName rest name payload
termination_by vs _ _ => (sizeOf vs, 0, 0)

end

mutual

/-- Handler read: one arm per registered tag. -/
def readVal : Ty → List Nat → Except String (JSVal × List Nat)
  | .u8, l => (readUint8 l).map (fun p => (.num (.fin (p.1 : ℚ)), p.2))
  | .u16, l => (readUint16 l).map (fun p => (.num (.fin (p.1 : ℚ)), p.2))
  | .u32, l => (readUint32 l).map (fun p => (.num (.fin (p.1 : ℚ)), p.2))
  | .u64, l => (readUint64 l).map (fun p => (.big (p.1 : Int), p.2))
  | .u128, l => (readUint128 l).map (fun p => (.big (p.1 : Int), p.2))
  | .i8, l => (readInt8 l).map (fun p => (.num (.fin (p.1 : ℚ)), p.2))
  | .i16, l => (readInt16 l).map (fun p => (.num (.fin (p.1 : ℚ)), p.2))
  | .i32, l => (readInt32 l).map (fun p => (.num (.fin (p.1 : ℚ)), p.2))
  | .i64, l => (readInt64 l).map (fun p => (.big p.1, p.2))
  | .i128, l => (readInt128 l).map (fun p => (.big p.1, p.2))
  | .str, l => (readString l).map (fun p => (.str p.1, p.2))
  | .unit, l => .ok (.record [], l)
  | .vec t, l => do
      let (n, l) ← readUint32 l
      let (vals, l) ← readElems t n l
      .ok (materializeVec t vals, l)
  | .array t len, l => do
      let (vals, l) ← readElems t len l
      .ok (.arr vals, l)
  | .set t, l => do
      let (n, l) ← readUint32 l
      let (vals, l) ← readElems t n l
      .ok (.setV (dedupSVZ vals), l)
  | .map kt vt, l => do
      let (n, l) ← readUint32 l
      let (entries, l) ← readEntries kt vt n l
      .ok (.mapV (mapFromEntries entries), l)
  | .opt t, l => do
      let (tag, l) ← readUint8 l
      if tag == 1 then readVal t l
      else .ok (.nullV, l)
  | .struct fields, l => do
      let (props, l) ← readFields fields l
      .ok (.record props, l)
  | .enum vs, l => do
      let (idx, l) ← readUint8 l
      readVariantByIndex vs idx l
  | .tup ts, l => do
      let (vals, l) ← readTupItems ts l
      .ok (.arr vals, l)
termination_by t _ => (sizeOf t, 1, 0)

/-- `Array.from({length}, () => handler.read(...))`. -/
def readElems : Ty → Nat → List Nat → Except String (List JSVal × List Nat)
  | _, 0, l => .ok ([], l)
  | t, n + 1, l => do
      let (v, l) ← readVal t l
      let (vs, l) ← readElems t n l
      .ok (v :: vs, l)
termination_by t n _ => (sizeOf t, 2, n)

/-- The struct read loop: fields in declaration order into a fresh record. -/
def readFields : List (String × Ty) → List Nat →
    Except String (List (String × JSVal) × List Nat)
  | [], l => .ok ([], l)
  | (name, t) :: fs, l => do
      let (v, l) ← readVal t l
      let (props, l) ← readFields fs l
      .ok ((name, v) :: props, l)
termination_by fs _ => (sizeOf fs, 0, 0)

/-- The map read loop: key then value per entry. -/
def readEntries : Ty → Ty → Nat → List Nat →
    Except String (List (JSVal × JSVal) × List Nat)
  | _, _, 0, l => .ok ([], l)
  | kt, vt, n + 1, l => do
      let (k, l) ← readVal kt l
      let (v, l) ← readVal vt l
      let (entries, l) ← readEntries kt vt n l
      .ok ((k, v) :: entries, l)
termination_by kt vt n _ => (1 + sizeOf kt + sizeOf vt, 0, n)

/-- The tuple read loop: each element through its positional handler. -/
def readTupItems : List Ty → List Nat → Except String (List JSVal × List Nat)
  | [], l => .ok ([], l)
  | t :: ts, l => do
      let (v, l) ← readVal t l
      let (vs, l) ← readTupItems ts l
      .ok (v :: vs, l)
termination_by ts _ => (sizeOf ts, 0, 0)

/-- `options.variants.find((v) => v.index === index)` followed by the variant
read: an unknown index is an error, a unit variant carries no payload. -/
def readVariantByIndex : List (Nat × String × Ty) → Nat → List Nat →
    Except String (JSVal × List Nat)
  | [], idx, _ => .error ("Unknown enum variant index: " ++ toString idx)
  | (i, name, t) :: rest, idx, l =>
      if i == idx then
        if isUnitTy t then .ok (.record [(name, .record [])], l)
        else do
          let (v, l) ← readVal t l
          .ok (.record [(name, v)], l)
      else readVariantByIndex rest idx l
termination_by vs _ _ => (sizeOf vs, 0, 0)

end

/-- `Schema.serialize` (src/schema.ts): allocate a writer, dispatch the root
handler, return the bytes written.  In the byte-list model this is the root
handler write itself. -/
def serializeTy (t : Ty) (v : JSVal) : Except String (List Nat) := writeVal t v

/-- `Schema.deserialize` (src/schema.ts): wrap the buffer in a reader and
dispatch the root handler read; trailing bytes are ignored. -/
def deserializeTy (t : Ty) (buffer : List Nat) : Except String JSVal :=
  (readVal t buffer).map (fun p => p.1)

/-! ## Wellformed schemas and canonical in-domain values

`Wf t` states that `t` was produced by the schema builder: struct field names
are unique (JavaScript object keys), enum variants carry their 0-based
declaration position as index (as `b.enum` assigns them) and at most 256
variants exist (the discriminator byte must hold the index).

`Good t v` states that `v` lies in the declared domain of `t` and is in the
canonical materialised form that a read produces: integers in range, dynamic
container counts below `2 ^ 32`, numeric vectors as packed typed arrays of the
matching kind, record properties in schema field order, Set elements and Map
entries pairwise distinct under SameValueZero and already in default-sort
order, option payloads never null, unit values the empty record. -/

/-- First variant whose `name` field matches (`find` by name in the enum write
handler), returning its stored index and payload type. -/
def findName : List (Nat × String × Ty) → String → Option (Nat × Ty)
  | [], _ => none
  | (i, vname, t) :: rest, name =>
      if vname == name then some (i, t) else findName rest name

inductive Wf : Ty → Prop where
  | u8 : Wf .u8
  | u16 : Wf .u16
  | u32 : Wf .u32
  | u64 : Wf .u64
  | u128 : Wf .u128
  | i8 : Wf .i8
  | i16 : Wf .i16
  | i32 : Wf .i32
  | i64 : Wf .i64
  | i128 : Wf .i128
  | str : Wf .str
  | unit : Wf .unit
  | vec {t : Ty} : Wf t → Wf (.vec t)
  | array {t : Ty} {n : Nat} : Wf t → Wf (.array t n)
  | set {t : Ty} : Wf t → Wf (.set t)
  | map {kt vt : Ty} : Wf kt → Wf vt → Wf (.map kt vt)
  | opt {t : Ty} : Wf t → Wf (.opt t)
  | struct {fields : List (String × Ty)} :
      (fields.map Prod.fst).Nodup → (∀ p ∈ fields, Wf p.2) → Wf (.struct fields)
  | enum {vs : List (Nat × String × Ty)} :
      vs.map (fun x => x.1) = List.range vs.length → vs.length ≤ 256 →
      (∀ p ∈ vs, Wf p.2.2) → Wf (.enum vs)
  | tup {ts : List Ty} : (∀ t ∈ ts, Wf t) → Wf (.tup ts)

mutual

inductive Good : Ty → JSVal → Prop where
  | u8 (n : Int) : 0 ≤ n → n ≤ 255 → Good .u8 (.num (.fin (n : ℚ)))
  | u16 (n : Int) : 0 ≤ n → n ≤ 65535 → Good .u16 (.num (.fin (n : ℚ)))
  | u32 (n : Int) : 0 ≤ n → n ≤ 4294967295 → Good .u32 (.num (.fin (n : ℚ)))
  | u64 (n : Int) : 0 ≤ n → n ≤ 18446744073709551615 → Good .u64 (.big n)
  | u128 (n : Int) : 0 ≤ n → n ≤ 340282366920938463463374607431768211455 →
      Good .u128 (.big n)
  | i8 (n : Int) : -128 ≤ n → n ≤ 127 → Good .i8 (.num (.fin (n : ℚ)))
  | i16 (n : Int) : -32768 ≤ n → n ≤ 32767 → Good .i16 (.num (.fin (n : ℚ)))
  | i32 (n : Int) : -2147483648 ≤ n → n ≤ 2147483647 → Good .i32 (.num (.fin (n : ℚ)))
  | i64 (n : Int) : -9223372036854775808 ≤ n → n ≤ 9223372036854775807 →
      Good .i64 (.big n)
  | i128 (n : Int) : -170141183460469231731687303715884105728 ≤ n →
      n ≤ 170141183460469231731687303715884105727 → Good .i128 (.big n)
  | str {bytes : List Nat} : (∀ b ∈ bytes, b < 256) → bytes.length < 2 ^ 32 →
      Good .str (.str bytes)
  | unit : Good .unit (.record [])
  | vecArr {t : Ty} {l : List JSVal} : numericKindOf t = none →
      (∀ v ∈ l, Good t v) → l.length < 2 ^ 32 → Good (.vec t) (.arr l)
  | vecTyped {t : Ty} {k : TKind} {l : List Int} : numericKindOf t = some k →
      (∀ n ∈ l, inKindRange k n = true) → l.length < 2 ^ 32 →
      Good (.vec t) (.typed k l)
  | array {t : Ty} {n : Nat} {l : List JSVal} : l.length = n →
      (∀ v ∈ l, Good t v) → Good (.array t n) (.arr l)
  | set {t : Ty} {l : List JSVal} : (∀ v ∈ l, Good t v) →
      List.Pairwise (fun a b => svz a b = false) l →
      List.Pairwise (fun a b => jsLeVal a b = true) l →
      l.length < 2 ^ 32 → Good (.set t) (.setV l)
  | map {kt vt : Ty} {entries : List (JSVal × JSVal)} :
      (∀ e ∈ entries, Good kt e.1) → (∀ e ∈ entries, Good vt e.2) →
      List.Pairwise (fun a b => svz a.1 b.1 = false) entries →
      List.Pairwise (fun a b => jsLeEntry a b = true) entries →
      entries.length < 2 ^ 32 → Good (.map kt vt) (.mapV entries)
  | optNone {t : Ty} : Good (.opt t) .nullV
  | optSome {t : Ty} {v : JSVal} : isNullV v = false → Good t v → Good (.opt t) v
  | struct {fields : List (String × Ty)} {props : List (String × JSVal)} :
      GoodProps fields props → Good (.struct fields) (.record props)
  | enum {vs : List (Nat × String × Ty)} {name : String} {payload : JSVal}
      {i : Nat} {t : Ty} : findName vs name = some (i, t) →
      (isUnitTy t = true → payload = .record []) →
      (isUnitTy t = false → Good t payload) →
      Good (.enum vs) (.record [(name, payload)])
  | tup {ts : List Ty} {l : List JSVal} : GoodTup ts l → Good (.tup ts) (.arr l)

/-- Properties aligned with the declared fields: same names in the same order,
each value in the domain of its field type. -/
inductive GoodProps : List (String × Ty) → List (String × JSVal) → Prop where
  | nil : GoodProps [] []
  | cons {name : String} {t : Ty} {v : JSVal} {fs : List (String × Ty)}
      {ps : List (String × JSVal)} :
      Good t v → GoodProps fs ps → GoodProps ((name, t) :: fs) ((name, v) :: ps)

/-- Tuple elements aligned with the declared positional types. -/
inductive GoodTup : List Ty → List JSVal → Prop where
  | nil : GoodTup [] []
  | cons {t : Ty} {v : JSVal} {ts : List Ty} {l : List JSVal} :
      Good t v → GoodTup ts l → GoodTup (t :: ts) (v :: l)

end

/-! ### Support lemmas for the round trip -/

theorem dedupSVZ_of_pairwise (l : List JSVal)
    (h : List.Pairwise (fun a b => svz a b = false) l) : dedupSVZ l = l := by
  induction l with
  | nil => simp [dedupSVZ]
  | cons x xs ih =>
      rw [List.pairwise_cons] at h
      obtain ⟨hx, hxs⟩ := h
      rw [dedupSVZ]
      have hfilter : xs.filter (fun y => !(svz x y)) = xs :=
        List.filter_eq_self.2 (fun y hy => by simp [hx y hy])
      rw [hfilter, ih hxs]

theorem mapUpsert_append (acc : List (JSVal × JSVal)) (k v : JSVal)
    (h : ∀ e ∈ acc, svz e.1 k = false) : mapUpsert acc k v = acc ++ [(k, v)] := by
  induction acc with
  | nil => simp [mapUpsert]
  | cons e rest ih =>
      obtain ⟨k0, v0⟩ := e
      rw [mapUpsert]
      have hk0 : svz k0 k = false := h (k0, v0) (List.mem_cons_self _ _)
      rw [hk0]
      simp only [Bool.false_eq_true, if_false, List.cons_append, List.cons.injEq, true_and]
      exact ih (fun e he => h e (List.mem_cons_of_mem _ he))

theorem mapFromEntries_go (l acc : List (JSVal × JSVal))
    (hdisj : ∀ a ∈ acc, ∀ b ∈ l, svz a.1 b.1 = false)
    (hp : List.Pairwise (fun a b => svz a.1 b.1 = false) l) :
    List.foldl (fun acc e => mapUpsert acc e.1 e.2) acc l = acc ++ l := by
  induction l generalizing acc with
  | nil => simp
  | cons e rest ih =>
      obtain ⟨k, v⟩ := e
      rw [List.pairwise_cons] at hp
      obtain ⟨hk, hrest⟩ := hp
      rw [List.foldl_cons]
      rw [mapUpsert_append acc k v
        (fun a ha => hdisj a ha (k, v) (List.mem_cons_self _ _))]
      rw [ih (acc ++ [(k, v)]) ?_ hrest]
      · simp
      · intro a ha b hb
        rcases List.mem_append.1 ha with h1 | h1
        · exact hdisj a h1 b (List.mem_cons_of_mem _ hb)
        · have : a = (k, v) := by simpa using h1
          subst this
          exact hk b hb

theorem mapFromEntries_of_pairwise (l : List (JSVal × JSVal))
    (hp : List.Pairwise (fun a b => svz a.1 b.1 = false) l) :
    mapFromEntries l = l := by
  rw [mapFromEntries, mapFromEntries_go l [] (by simp) hp]
  simp

theorem lookupProp_cons_ne (k : String) (v : JSVal) (ps : List (String × JSVal))
    (name : String) (h : k ≠ name) :
    lookupProp ((k, v) :: ps) name = lookupProp ps name := by
  simp [lookupProp, h]

theorem writeFields_dropProp (fs : List (String × Ty)) (n : String) (v : JSVal)
    (ps : List (String × JSVal)) (h : n ∉ fs.map Prod.fst) :
    writeFields fs ((n, v) :: ps) = writeFields fs ps := by
  induction fs with
  | nil => rw [writeFields, writeFields]
  | cons f fs ih =>
      obtain ⟨m, t⟩ := f
      have hmn : m ≠ n := by
        intro hcon
        exact h (by simp [hcon])
      rw [writeFields, writeFields,
        lookupProp_cons_ne n v ps m (fun hc => hmn hc.symm),
        ih (fun hc => h (List.mem_cons_of_mem _ hc))]

theorem findName_mem {vs : List (Nat × String × Ty)} {name : String} {i : Nat}
    {t : Ty} (h : findName vs name = some (i, t)) : (i, name, t) ∈ vs := by
  induction vs with
  | nil => simp [findName] at h
  | cons p rest ih =>
      obtain ⟨j, m, u⟩ := p
      rw [findName] at h
      by_cases hm : m = name
      · subst hm
        simp only [beq_self_eq_true, if_true, Option.some.injEq, Prod.mk.injEq] at h
        obtain ⟨h1, h2⟩ := h
        subst h1; subst h2
        exact List.mem_cons_self _ _
      · rw [if_neg (by simpa using hm)] at h
        exact List.mem_cons_of_mem _ (ih h)

/-! ### Primitive handler round trips -/

theorem intCast_rat_den (n : Int) : ((n : ℚ)).den = 1 := Rat.den_intCast n

theorem jsNumToInt_intCast (n : Int) : jsNumToInt (.fin (n : ℚ)) = n := by
  simp [jsNumToInt, Rat.num_intCast, Rat.den_intCast, Int.tdiv_one]

theorem u8_rt (n : Int) (rest : List Nat) (h0 : 0 ≤ n) (h1 : n ≤ 255) :
    writeVal .u8 (.num (.fin (n : ℚ))) = .ok (writeUint8 n) ∧
    readVal .u8 (writeUint8 n ++ rest) = .ok (.num (.fin (n : ℚ)), rest) := by
  have hA : ¬ ((n : ℚ) < (0 : ℚ)) := by exact_mod_cast not_lt.2 h0
  have hB : ¬ ((255 : ℚ) < (n : ℚ)) := by exact_mod_cast not_lt.2 h1
  constructor
  · simp [writeVal, u8Write, jsLt, jsIsInteger, hA, hB, intCast_rat_den,
      jsNumToInt_intCast]
  · rw [writeUint8, readVal]
    rw [readUint8, readUintW_writeU 1 n rest h0 (by norm_num; omega)]
    have hcast : ((n.toNat : Nat) : ℚ) = (n : ℚ) := by
      have := Int.toNat_of_nonneg h0
      exact_mod_cast congrArg (fun z : Int => (z : ℚ)) this
    simp [Except.map, hcast]

theorem u16_rt (n : Int) (rest : List Nat) (h0 : 0 ≤ n) (h1 : n ≤ 65535) :
    writeVal .u16 (.num (.fin (n : ℚ))) = .ok (writeUint16 n) ∧
    readVal .u16 (writeUint16 n ++ rest) = .ok (.num (.fin (n : ℚ)), rest) := by
  have hA : ¬ ((n : ℚ) < (0 : ℚ)) := by exact_mod_cast not_lt.2 h0
  have hB : ¬ ((65535 : ℚ) < (n : ℚ)) := by exact_mod_cast not_lt.2 h1
  constructor
  · simp [writeVal, u16Write, jsLt, jsIsInteger, hA, hB, intCast_rat_den,
      jsNumToInt_intCast]
  · rw [writeUint16, readVal]
    rw [readUint16, readUintW_writeU 2 n rest h0 (by norm_num; omega)]
    have hcast : ((n.toNat : Nat) : ℚ) = (n : ℚ) := by
      have := Int.toNat_of_nonneg h0
      exact_mod_cast congrArg (fun z : Int => (z : ℚ)) this
    simp [Except.map, hcast]

theorem u32_rt (n : Int) (rest : List Nat) (h0 : 0 ≤ n) (h1 : n ≤ 4294967295) :
    writeVal .u32 (.num (.fin (n : ℚ))) = .ok (writeUint32 n) ∧
    readVal .u32 (writeUint32 n ++ rest) = .ok (.num (.fin (n : ℚ)), rest) := by
  have hA : ¬ ((n : ℚ) < (0 : ℚ)) := by exact_mod_cast not_lt.2 h0
  have hB : ¬ ((4294967295 : ℚ) < (n : ℚ)) := by exact_mod_cast not_lt.2 h1
  constructor
  · simp [writeVal, u32Write, jsLt, jsIsInteger, hA, hB, intCast_rat_den,
      jsNumToInt_intCast]
  · rw [writeUint32, readVal]
    rw [readUint32, readUintW_writeU 4 n rest h0 (by norm_num; omega)]
    have hcast : ((n.toNat : Nat) : ℚ) = (n : ℚ) := by
      have := Int.toNat_of_nonneg h0
      exact_mod_cast congrArg (fun z : Int => (z : ℚ)) this
    simp [Except.map, hcast]

theorem i8_rt (n : Int) (rest : List Nat) (h0 : -128 ≤ n) (h1 : n ≤ 127) :
    writeVal .i8 (.num (.fin (n : ℚ))) = .ok (writeInt8 n) ∧
    readVal .i8 (writeInt8 n ++ rest) = .ok (.num (.fin (n : ℚ)), rest) := by
  have hA : ¬ ((n : ℚ) < (-128 : ℚ)) := by exact_mod_cast not_lt.2 h0
  have hB : ¬ ((127 : ℚ) < (n : ℚ)) := by exact_mod_cast not_lt.2 h1
  constructor
  · simp [writeVal, i8Write, jsLt, jsIsInteger, hA, hB, intCast_rat_den,
      jsNumToInt_intCast]
  · rw [writeInt8, readVal]
    rw [readInt8, readIntW_writeI 1 n rest (by norm_num)
      (by rw [show (8 : Nat) * 1 - 1 = 7 by norm_num]; norm_num; omega)
      (by rw [show (8 : Nat) * 1 - 1 = 7 by norm_num]; norm_num; omega)]
    simp [Except.map]

theorem i16_rt (n : Int) (rest : List Nat) (h0 : -32768 ≤ n) (h1 : n ≤ 32767) :
    writeVal .i16 (.num (.fin (n : ℚ))) = .ok (writeInt16 n) ∧
    readVal .i16 (writeInt16 n ++ rest) = .ok (.num (.fin (n : ℚ)), rest) := by
  have hA : ¬ ((n : ℚ) < (-32768 : ℚ)) := by exact_mod_cast not_lt.2 h0
  have hB : ¬ ((32767 : ℚ) < (n : ℚ)) := by exact_mod_cast not_lt.2 h1
  constructor
  · simp [writeVal, i16Write, jsLt, jsIsInteger, hA, hB, intCast_rat_den,
      jsNumToInt_intCast]
  · rw [writeInt16, readVal]
    rw [readInt16, readIntW_writeI 2 n rest (by norm_num)
      (by rw [show (8 : Nat) * 2 - 1 = 15 by norm_num]; norm_num; omega)
      (by rw [show (8 : Nat) * 2 - 1 = 15 by norm_num]; norm_num; omega)]
    simp [Except.map]

theorem i32_rt (n : Int) (rest : List Nat) (h0 : -2147483648 ≤ n) (h1 : n ≤ 2147483647) :
    writeVal .i32 (.num (.fin (n : ℚ))) = .ok (writeInt32 n) ∧
    readVal .i32 (writeInt32 n ++ rest) = .ok (.num (.fin (n : ℚ)), rest) := by
  have hA : ¬ ((n : ℚ) < (-2147483648 : ℚ)) := by exact_mod_cast not_lt.2 h0
  have hB : ¬ ((2147483647 : ℚ) < (n : ℚ)) := by exact_mod_cast not_lt.2 h1
  constructor
  · simp [writeVal, i32Write, jsLt, jsIsInteger, hA, hB, intCast_rat_den,
      jsNumToInt_intCast]
  · rw [writeInt32, readVal]
    rw [readInt32, readIntW_writeI 4 n rest (by norm_num)
      (by rw [show (8 : Nat) * 4 - 1 = 31 by norm_num]; norm_num; omega)
      (by rw [show (8 : Nat) * 4 - 1 = 31 by norm_num]; norm_num; omega)]
    simp [Except.map]

theorem u64_rt (n : Int) (rest : List Nat) (h0 : 0 ≤ n)
    (h1 : n ≤ 18446744073709551615) :
    writeVal .u64 (.big n) = .ok (writeUint64 n) ∧
    readVal .u64 (writeUint64 n ++ rest) = .ok (.big n, rest) := by
  have hc : ¬ (n < 0 ∨ n > 18446744073709551615) := by omega
  constructor
  · simp [writeVal, u64Write, hc]
  · rw [writeUint64, readVal]
    rw [readUint64, readUintW_writeU 8 n rest h0 (by norm_num; omega)]
    simp [Except.map, Int.toNat_of_nonneg h0]

theorem u128_rt (n : Int) (rest : List Nat) (h0 : 0 ≤ n)
    (h1 : n ≤ 340282366920938463463374607431768211455) :
    writeVal .u128 (.big n) = .ok (writeUint128 n) ∧
    readVal .u128 (writeUint128 n ++ rest) = .ok (.big n, rest) := by
  have hc : ¬ (n < 0 ∨ n > 340282366920938463463374607431768211455) := by omega
  constructor
  · simp [writeVal, u128Write, hc]
  · rw [readVal, readUint128_writeUint128 n rest h0 (by norm_num; omega)]
    simp [Except.map, Int.toNat_of_nonneg h0]

theorem i64_rt (n : Int) (rest : List Nat) (h0 : -9223372036854775808 ≤ n)
    (h1 : n ≤ 9223372036854775807) :
    writeVal .i64 (.big n) = .ok (writeInt64 n) ∧
    readVal .i64 (writeInt64 n ++ rest) = .ok (.big n, rest) := by
  have hc : ¬ (n < -9223372036854775808 ∨ n > 9223372036854775807) := by omega
  constructor
  · simp [writeVal, i64Write, hc]
  · rw [writeInt64, readVal]
    rw [readInt64, readIntW_writeI 8 n rest (by norm_num)
      (by rw [show (8 : Nat) * 8 - 1 = 63 by norm_num]; norm_num; omega)
      (by rw [show (8 : Nat) * 8 - 1 = 63 by norm_num]; norm_num; omega)]
    simp [Except.map]

theorem i128_rt (n : Int) (rest : List Nat)
    (h0 : -170141183460469231731687303715884105728 ≤ n)
    (h1 : n ≤ 170141183460469231731687303715884105727) :
    writeVal .i128 (.big n) = .ok (writeInt128 n) ∧
    readVal .i128 (writeInt128 n ++ rest) = .ok (.big n, rest) := by
  have hc : ¬ (n < -170141183460469231731687303715884105728 ∨
      n > 170141183460469231731687303715884105727) := by omega
  constructor
  · simp [writeVal, i128Write, hc]
  · rw [readVal, readInt128_writeInt128 n rest (by norm_num; omega) (by norm_num; omega)]
    simp [Except.map]

theorem str_rt (bytes : List Nat) (rest : List Nat) (hlen : bytes.length < 2 ^ 32) :
    writeVal .str (.str bytes) = .ok (writeString bytes) ∧
    readVal .str (writeString bytes ++ rest) = .ok (.str bytes, rest) := by
  constructor
  · simp [writeVal, jsToStr]
  · have hc : (bytes.length : Int) < (2 : Int) ^ (8 * 4) := by
      have : ((2 ^ 32 : Nat) : Int) = (2 : Int) ^ (8 * 4) := by norm_num
      rw [← this]
      exact_mod_cast hlen
    rw [readVal, writeString, writeUint32, List.append_assoc, readString, readUint32,
      readUintW_writeU 4 (bytes.length : Int) (bytes ++ rest) (by omega) hc]
    simp only [Int.toNat_natCast, exceptBindOk]
    rw [List.take_left, List.drop_left]
    rfl

/-! ### Typed-array kinds -/

theorem good_tkindVal {t : Ty} {k : TKind} (hk : numericKindOf t = some k)
    (n : Int) (hr : inKindRange k n = true) : Good t (tkindVal k n) := by
  cases t <;> simp only [numericKindOf, Option.some.injEq, reduceCtorEq] at hk <;>
    subst hk <;> simp only [tkindVal] <;> simp only [inKindRange, decide_eq_true_eq] at hr
  · exact Good.u8 n (by omega) (by omega)
  · exact Good.u16 n (by omega) (by omega)
  · exact Good.u32 n (by omega) (by omega)
  · exact Good.i8 n (by omega) (by omega)
  · exact Good.i16 n (by omega) (by omega)
  · exact Good.i32 n (by omega) (by omega)
  · exact Good.i64 n (by omega) (by omega)

theorem typedContent_tkindVal {k : TKind} (n : Int) (hr : inKindRange k n = true) :
    typedContent k (tkindVal k n) = n := by
  cases k <;>
    simp only [inKindRange, decide_eq_true_eq] at hr <;>
    simp only [tkindVal, typedContent, jsNumToInt_intCast, wrapKind] <;>
    omega

theorem readUint8_nat (i : Nat) (rest : List Nat) (h : i < 256) :
    readUint8 (writeUint8 (i : Int) ++ rest) = .ok (i, rest) := by
  rw [writeUint8, readUint8,
    readUintW_writeU 1 (i : Int) rest (by omega) (by norm_num; omega)]
  rw [Int.toNat_natCast]

theorem readUint32_nat (n : Nat) (rest : List Nat) (h : n < 2 ^ 32) :
    readUint32 (writeUint32 (n : Int) ++ rest) = .ok (n, rest) := by
  rw [writeUint32, readUint32,
    readUintW_writeU 4 (n : Int) rest (by omega) (by norm_num; omega)]
  rw [Int.toNat_natCast]

theorem goodTup_length {ts : List Ty} {l : List JSVal} (h : GoodTup ts l) :
    l.length = ts.length := by
  induction ts generalizing l with
  | nil => cases h; rfl
  | cons t ts ih =>
      cases h with
      | cons _ htail => simp [ih htail]

/-! ## The round trip

For every wellformed schema and every canonical in-domain value, the handler
write succeeds and the handler read parses exactly the written bytes back to
the same value, leaving any trailing bytes untouched. -/

/-- Elementwise round trip for a sequence, given the round trip of the element
handler. -/
theorem rtElemsP (t : Ty)
    (P : ∀ (v : JSVal) (rest2 : List Nat), Good t v →
      ∃ b, writeVal t v = .ok b ∧ readVal t (b ++ rest2) = .ok (v, rest2)) :
    ∀ (l : List JSVal) (rest : List Nat), (∀ v ∈ l, Good t v) →
      ∃ bs, writeElems t l = .ok bs ∧
        readElems t l.length (bs ++ rest) = .ok (l, rest) := by
  intro l
  induction l with
  | nil =>
      intro rest _
      exact ⟨[], by rw [writeElems], by rw [List.nil_append, List.length_nil, readElems]⟩
  | cons x xs ih =>
      intro rest hall
      obtain ⟨bs, hwbs, hrbs⟩ := ih rest (fun v hv => hall v (List.mem_cons_of_mem _ hv))
      obtain ⟨b, hwb, hrb⟩ := P x (bs ++ rest) (hall x (List.mem_cons_self _ _))
      refine ⟨b ++ bs, ?_, ?_⟩
      · rw [writeElems]
        simp only [hwb, hwbs, exceptBindOk]
      · rw [List.length_cons, readElems, List.append_assoc]
        simp only [hrb, hrbs, exceptBindOk]

/-- Struct round trip, given the round trips of the field handlers. -/
theorem rtPropsP :
    ∀ (fields : List (String × Ty)),
      (∀ p ∈ fields, ∀ (v : JSVal) (rest2 : List Nat), Good p.2 v →
        ∃ b, writeVal p.2 v = .ok b ∧ readVal p.2 (b ++ rest2) = .ok (v, rest2)) →
      (fields.map Prod.fst).Nodup →
      ∀ (props : List (String × JSVal)) (rest : List Nat), GoodProps fields props →
        ∃ bs, writeFields fields props = .ok bs ∧
          readFields fields (bs ++ rest) = .ok (props, rest) := by
  intro fields
  induction fields with
  | nil =>
      intro _ _ props rest hgp
      cases hgp
      exact ⟨[], by rw [writeFields], by rw [List.nil_append, readFields]⟩
  | cons f fs ih =>
      intro P hnd props rest hgp
      cases hgp with
      | cons hg htail =>
          rename_i name t v ps
          rw [List.map_cons, List.nodup_cons] at hnd
          obtain ⟨hnotin, hndtail⟩ := hnd
          obtain ⟨bs, hwbs, hrbs⟩ := ih
            (fun p hp => P p (List.mem_cons_of_mem _ hp)) hndtail ps rest htail
          obtain ⟨b, hwb, hrb⟩ :=
            P (name, t) (List.mem_cons_self _ _) v (bs ++ rest) hg
          refine ⟨b ++ bs, ?_, ?_⟩
          · rw [writeFields]
            have hlk : lookupProp ((name, v) :: ps) name = v := by
              simp [lookupProp]
            rw [hlk, writeFields_dropProp fs name v ps hnotin]
            simp only [hwb, hwbs, exceptBindOk]
          · rw [readFields, List.append_assoc]
            simp only [hrb, hrbs, exceptBindOk]

/-- Map-entry round trip, given the round trips of the key and value
handlers. -/
theorem rtEntriesP (kt vt : Ty)
    (Pk : ∀ (v : JSVal) (rest2 : List Nat), Good kt v →
      ∃ b, writeVal kt v = .ok b ∧ readVal kt (b ++ rest2) = .ok (v, rest2))
    (Pv : ∀ (v : JSVal) (rest2 : List Nat), Good vt v →
      ∃ b, writeVal vt v = .ok b ∧ readVal vt (b ++ rest2) = .ok (v, rest2)) :
    ∀ (entries : List (JSVal × JSVal)) (rest : List Nat),
      (∀ e ∈ entries, Good kt e.1) → (∀ e ∈ entries, Good vt e.2) →
      ∃ bs, writeEntries kt vt entries = .ok bs ∧
        readEntries kt vt entries.length (bs ++ rest) = .ok (entries, rest) := by
  intro entries
  induction entries with
  | nil =>
      intro rest _ _
      exact ⟨[], by rw [writeEntries],
        by rw [List.nil_append, List.length_nil, readEntries]⟩
  | cons e es ih =>
      obtain ⟨k, v⟩ := e
      intro rest hkall hvall
      obtain ⟨bs, hwbs, hrbs⟩ := ih rest
        (fun e he => hkall e (List.mem_cons_of_mem _ he))
        (fun e he => hvall e (List.mem_cons_of_mem _ he))
      obtain ⟨bv, hwbv, hrbv⟩ :=
        Pv v (bs ++ rest) (hvall (k, v) (List.mem_cons_self _ _))
      obtain ⟨bk, hwbk, hrbk⟩ :=
        Pk k (bv ++ (bs ++ rest)) (hkall (k, v) (List.mem_cons_self _ _))
      refine ⟨bk ++ bv ++ bs, ?_, ?_⟩
      · rw [writeEntries]
        simp only [hwbk, hwbv, hwbs, exceptBindOk]
      · rw [List.length_cons, readEntries]
        rw [show bk ++ bv ++ bs ++ rest = bk ++ (bv ++ (bs ++ rest)) by simp]
        simp only [hrbk, hrbv, hrbs, exceptBindOk]

/-- Tuple round trip, given the round trips of the positional handlers. -/
theorem rtTupP :
    ∀ (ts : List Ty),
      (∀ t ∈ ts, ∀ (v : JSVal) (rest2 : List Nat), Good t v →
        ∃ b, writeVal t v = .ok b ∧ readVal t (b ++ rest2) = .ok (v, rest2)) →
      ∀ (l : List JSVal) (rest : List Nat), GoodTup ts l →
        ∃ bs, writeTupItems ts l = .ok bs ∧
          readTupItems ts (bs ++ rest) = .ok (l, rest) := by
  intro ts
  induction ts with
  | nil =>
      intro _ l rest hgt
      cases hgt
      exact ⟨[], by rw [writeTupItems], by rw [List.nil_append, readTupItems]⟩
  | cons t ts2 ih =>
      intro P l rest hgt
      cases hgt with
      | cons hg htail =>
          rename_i v l2
          obtain ⟨bs, hwbs, hrbs⟩ := ih
            (fun u hu => P u (List.mem_cons_of_mem _ hu)) l2 rest htail
          obtain ⟨b, hwb, hrb⟩ := P t (List.mem_cons_self _ _) v (bs ++ rest) hg
          refine ⟨b ++ bs, ?_, ?_⟩
          · rw [writeTupItems]
            simp only [hwb, hwbs, exceptBindOk]
          · rw [readTupItems, List.append_assoc]
            simp only [hrb, hrbs, exceptBindOk]

/-- Enum variant round trip, given the round trips of the payload handlers:
the write scan finds the variant by name and emits its stored index; the read
scan finds the same variant back by that index. -/
theorem rtVariantP :
    ∀ (vs : List (Nat × String × Ty)),
      (∀ p ∈ vs, ∀ (payload : JSVal) (rest2 : List Nat), Good p.2.2 payload →
        ∃ b, writeVal p.2.2 payload = .ok b ∧
          readVal p.2.2 (b ++ rest2) = .ok (payload, rest2)) →
      ∀ (start : Nat) (name : String) (payload : JSVal) (i : Nat) (pt : Ty)
        (rest : List Nat),
        vs.map (fun x => x.1) = List.range' start vs.length →
        start + vs.length ≤ 256 →
        findName vs name = some (i, pt) →
        (isUnitTy pt = true → payload = .record []) →
        (isUnitTy pt = false → Good pt payload) →
        ∃ bs, writeVariantByName vs name payload = .ok (writeUint8 (i : Int) ++ bs) ∧
          readVariantByIndex vs i (bs ++ rest) = .ok (.record [(name, payload)], rest) ∧
          i < 256 := by
  intro vs
  induction vs with
  | nil =>
      intro _ start name payload i pt rest hidx hmax hfind hunit hgood
      simp [findName] at hfind
  | cons p vtail ih =>
      obtain ⟨j, m, u⟩ := p
      intro P start name payload i pt rest hidx hmax hfind hunit hgood
      rw [List.map_cons, List.length_cons, List.range'_succ] at hidx
      have hj : j = start := by
        have := congrArg (fun l => l.headD 0) hidx
        simpa using this
      have htidx : vtail.map (fun x => x.1) = List.range' (start + 1) vtail.length := by
        have := congrArg List.tail hidx
        simpa using this
      simp only [List.length_cons] at hmax
      by_cases hm : m = name
      · subst hm
        rw [findName] at hfind
        simp only [beq_self_eq_true, if_true, Option.some.injEq, Prod.mk.injEq] at hfind
        obtain ⟨hij, htu⟩ := hfind
        subst hij
        subst htu
        by_cases hu : isUnitTy u = true
        · have hp : payload = .record [] := hunit hu
          subst hp
          refine ⟨[], ?_, ?_, by omega⟩
          · rw [writeVariantByName]
            simp [hu, List.append_nil]
          · rw [readVariantByIndex]
            simp [hu]
        · have hgp : Good u payload := hgood (by simpa using hu)
          obtain ⟨bs, hwb, hrb⟩ :=
            P (j, m, u) (List.mem_cons_self _ _) payload rest hgp
          refine ⟨bs, ?_, ?_, by omega⟩
          · rw [writeVariantByName]
            simp only [beq_self_eq_true, if_true, hu, Bool.false_eq_true, if_false,
              hwb, exceptBindOk]
          · rw [readVariantByIndex]
            simp only [beq_self_eq_true, if_true, hu, Bool.false_eq_true, if_false,
              hrb, exceptBindOk]
      · rw [findName, if_neg (by simpa using hm)] at hfind
        obtain ⟨bs, hwb, hrb, hilt⟩ := ih
          (fun p hp => P p (List.mem_cons_of_mem _ hp)) (start + 1) name payload
          i pt rest htidx (by omega) hfind hunit hgood
        have hine : i ≠ j := by
          have hmem : (i, name, pt) ∈ vtail := findName_mem hfind
          have hmm : i ∈ vtail.map (fun x => x.1) :=
            List.mem_map.2 ⟨(i, name, pt), hmem, rfl⟩
          rw [htidx] at hmm
          have := List.mem_range'.1 hmm
          omega
        refine ⟨bs, ?_, ?_, hilt⟩
        · rw [writeVariantByName, if_neg (by simpa using hm)]
          exact hwb
        · rw [readVariantByIndex, if_neg (by simpa using (fun hc => hine hc.symm))]
          exact hrb

/-- The round trip: for every wellformed schema and every canonical in-domain
value, the handler write succeeds and the handler read parses exactly the
written bytes back to the same value, leaving trailing bytes untouched. -/
theorem rtVal (t : Ty) (v : JSVal) (rest : List Nat) (hw : Wf t) (hg : Good t v) :
    ∃ bs, writeVal t v = .ok bs ∧ readVal t (bs ++ rest) = .ok (v, rest) := by
  cases hg with
  | u8 n h0 h1 => exact ⟨writeUint8 n, (u8_rt n rest h0 h1).1, (u8_rt n rest h0 h1).2⟩
  | u16 n h0 h1 => exact ⟨writeUint16 n, (u16_rt n rest h0 h1).1, (u16_rt n rest h0 h1).2⟩
  | u32 n h0 h1 => exact ⟨writeUint32 n, (u32_rt n rest h0 h1).1, (u32_rt n rest h0 h1).2⟩
  | u64 n h0 h1 => exact ⟨writeUint64 n, (u64_rt n rest h0 h1).1, (u64_rt n rest h0 h1).2⟩
  | u128 n h0 h1 =>
      exact ⟨writeUint128 n, (u128_rt n rest h0 h1).1, (u128_rt n rest h0 h1).2⟩
  | i8 n h0 h1 => exact ⟨writeInt8 n, (i8_rt n rest h0 h1).1, (i8_rt n rest h0 h1).2⟩
  | i16 n h0 h1 => exact ⟨writeInt16 n, (i16_rt n rest h0 h1).1, (i16_rt n rest h0 h1).2⟩
  | i32 n h0 h1 => exact ⟨writeInt32 n, (i32_rt n rest h0 h1).1, (i32_rt n rest h0 h1).2⟩
  | i64 n h0 h1 => exact ⟨writeInt64 n, (i64_rt n rest h0 h1).1, (i64_rt n rest h0 h1).2⟩
  | i128 n h0 h1 =>
      exact ⟨writeInt128 n, (i128_rt n rest h0 h1).1, (i128_rt n rest h0 h1).2⟩
  | str hbytes hlen =>
      exact ⟨writeString _, (str_rt _ rest hlen).1, (str_rt _ rest hlen).2⟩
  | unit => exact ⟨[], by rw [writeVal], by rw [List.nil_append, readVal]⟩
  | @vecArr t l hk hall hlen =>
      cases hw with
      | vec hwt =>
          obtain ⟨bs, hwr, hrd⟩ := rtElemsP t
            (fun w rest2 hgw => rtVal t w rest2 hwt hgw) l rest hall
          refine ⟨writeUint32 (l.length : Int) ++ bs, ?_, ?_⟩
          · simp only [writeVal, hwr, exceptBindOk]
          · rw [readVal, List.append_assoc, readUint32_nat l.length (bs ++ rest) hlen]
            simp only [exceptBindOk, hrd, materializeVec, hk]
  | @vecTyped t k l hk hrange hlen =>
      cases hw with
      | vec hwt =>
          have hall : ∀ w ∈ l.map (tkindVal k), Good t w := by
            intro w hwm
            obtain ⟨n, hn, rfl⟩ := List.mem_map.1 hwm
            exact good_tkindVal hk n (hrange n hn)
          obtain ⟨bs, hwr, hrd⟩ := rtElemsP t
            (fun w rest2 hgw => rtVal t w rest2 hwt hgw) (l.map (tkindVal k)) rest hall
          refine ⟨writeUint32 (l.length : Int) ++ bs, ?_, ?_⟩
          · simp only [writeVal, hwr, exceptBindOk]
          · rw [readVal, List.append_assoc, readUint32_nat l.length (bs ++ rest) hlen]
            rw [List.length_map] at hrd
            simp only [exceptBindOk, hrd, materializeVec, hk, List.map_map]
            have hmap : l.map (typedContent k ∘ tkindVal k) = l := by
              rw [List.map_congr_left
                (fun n hn => by
                  simp only [Function.comp_apply]
                  exact typedContent_tkindVal n (hrange n hn))]
              exact List.map_id l
            rw [hmap]
  | @array t n l hlen hall =>
      cases hw with
      | array hwt =>
          obtain ⟨bs, hwr, hrd⟩ := rtElemsP t
            (fun w rest2 hgw => rtVal t w rest2 hwt hgw) l rest hall
          refine ⟨bs, ?_, ?_⟩
          · simp only [writeVal, hlen, ne_eq, not_true_eq_false, if_false, hwr]
          · rw [readVal, ← hlen]
            simp only [hrd, exceptBindOk]
  | @set t l hall hdist hsorted hlen =>
      cases hw with
      | set hwt =>
          have hsort : jsSortVals l = l := List.mergeSort_of_sorted hsorted
          obtain ⟨bs, hwr, hrd⟩ := rtElemsP t
            (fun w rest2 hgw => rtVal t w rest2 hwt hgw) l rest hall
          refine ⟨writeUint32 (l.length : Int) ++ bs, ?_, ?_⟩
          · simp only [writeVal, hsort, hwr, exceptBindOk]
          · rw [readVal, List.append_assoc, readUint32_nat l.length (bs ++ rest) hlen]
            simp only [exceptBindOk, hrd, dedupSVZ_of_pairwise l hdist]
  | @map kt vt entries hkall hvall hdist hsorted hlen =>
      cases hw with
      | map hwk hwv =>
          have hsort : jsSortEntries entries = entries := List.mergeSort_of_sorted hsorted
          obtain ⟨bs, hwr, hrd⟩ := rtEntriesP kt vt
            (fun w rest2 hgw => rtVal kt w rest2 hwk hgw)
            (fun w rest2 hgw => rtVal vt w rest2 hwv hgw) entries rest hkall hvall
          refine ⟨writeUint32 (entries.length : Int) ++ bs, ?_, ?_⟩
          · simp only [writeVal, hsort, hwr, exceptBindOk]
          · rw [readVal, List.append_assoc, readUint32_nat entries.length (bs ++ rest) hlen]
            simp only [exceptBindOk, hrd, mapFromEntries_of_pairwise entries hdist]
  | optNone =>
      cases hw with
      | opt hwt =>
          refine ⟨writeUint8 0, ?_, ?_⟩
          · rw [writeVal]
            rfl
          · rw [readVal, show writeUint8 0 = writeUint8 ((0 : Nat) : Int) by norm_num,
              readUint8_nat 0 rest (by norm_num)]
            rfl
  | @optSome t v hnn hgv =>
      cases hw with
      | opt hwt =>
          obtain ⟨bs, hwr, hrd⟩ := rtVal t v rest hwt hgv
          refine ⟨writeUint8 1 ++ bs, ?_, ?_⟩
          · rw [writeVal]
            simp only [hnn, Bool.false_eq_true, if_false, hwr, exceptBindOk]
          · rw [readVal, List.append_assoc, show writeUint8 1 = writeUint8 ((1 : Nat) : Int)
              by norm_num, readUint8_nat 1 (bs ++ rest) (by norm_num)]
            simp only [exceptBindOk, hrd]
            rfl
  | @struct fields props hgp =>
      cases hw with
      | struct hnd hwfs =>
          obtain ⟨bs, hwr, hrd⟩ := rtPropsP fields
            (fun p hp w rest2 hgw => rtVal p.2 w rest2 (hwfs p hp) hgw)
            hnd props rest hgp
          exact ⟨bs, by simp only [writeVal, hwr],
            by rw [readVal]; simp only [hrd, exceptBindOk]⟩
  | @enum vs name payload i pt hfind hunit hgood =>
      cases hw with
      | enum hidx hmax hwfs =>
          have hidx0 : vs.map (fun x => x.1) = List.range' 0 vs.length := by
            rw [hidx, List.range_eq_range']
          obtain ⟨bs, hwr, hrd, hilt⟩ := rtVariantP vs
            (fun p hp w rest2 hgw => rtVal p.2.2 w rest2 (hwfs p hp) hgw)
            0 name payload i pt rest hidx0 (by omega) hfind hunit hgood
          refine ⟨writeUint8 (i : Int) ++ bs, ?_, ?_⟩
          · rw [writeVal, hwr]
          · rw [readVal, List.append_assoc, readUint8_nat i (bs ++ rest) hilt]
            simp only [exceptBindOk, hrd]
  | @tup ts l hgt =>
      cases hw with
      | tup hwts =>
          obtain ⟨bs, hwr, hrd⟩ := rtTupP ts
            (fun p hp w rest2 hgw => rtVal p w rest2 (hwts p hp) hgw) l rest hgt
          refine ⟨bs, ?_, ?_⟩
          · simp only [writeVal, goodTup_length hgt, ne_eq, not_true_eq_false, if_false, hwr]
          · rw [readVal]
            simp only [hrd, exceptBindOk]
termination_by sizeOf t
decreasing_by
  all_goals subst_vars
  all_goals try (simp only [Ty.vec.sizeOf_spec, Ty.array.sizeOf_spec, Ty.set.sizeOf_spec,
    Ty.map.sizeOf_spec, Ty.opt.sizeOf_spec, Ty.struct.sizeOf_spec, Ty.enum.sizeOf_spec,
    Ty.tup.sizeOf_spec]; omega)
  all_goals
    (have hms := List.sizeOf_lt_of_mem (by assumption)
     first
     | (simp at hms ⊢; omega)
     | (obtain ⟨p1, p2⟩ := p
        simp at hms ⊢
        omega)
     | (obtain ⟨p1, p2⟩ := p
        obtain ⟨q1, q2⟩ := p2
        simp at hms ⊢
        omega))


/-! ## Claim C3: NaN at encode time -/

/-- C3 counterexample: the f32 handler has no NaN check, so serializing NaN
through an f32 schema succeeds and writes the 4 NaN encoding bytes of the
platform (here instantiated with the common canonical binary32 NaN pattern)
instead of failing. -/
theorem f32_nan_counterexample :
    f32Write (fun _ => [0, 0, 192, 127]) JSNum.nan = .ok [0, 0, 192, 127] ∧
    (f32Write (fun _ => [0, 0, 192, 127]) JSNum.nan).isOk = true :=
  ⟨rfl, rfl⟩

/-- C3 (amended): the f64 handler rejects NaN before writing anything, for
every float byte encoding; the f32 handler performs no check at all and writes
the encoding of NaN to the buffer. -/
theorem nan_rejection_amended :
    (∀ enc : JSNum → List Nat, f64Write enc JSNum.nan =
      .error "For portability reasons we do not allow serializing NaN values.") ∧
    (∀ enc : JSNum → List Nat, f32Write enc JSNum.nan = .ok (enc JSNum.nan)) ∧
    (∀ (enc : JSNum → List Nat) (v : JSNum), v.isNaN = false →
      f64Write enc v = .ok (enc v)) := by
  refine ⟨fun enc => rfl, fun enc => rfl, fun enc v hv => ?_⟩
  rw [f64Write, hv]
  rfl

/-- C3 witness: a non-NaN value passes the f64 check. -/
theorem nan_rejection_amended_witness :
    f64Write (fun _ => [0, 0, 0, 0, 0, 0, 0, 0]) (JSNum.fin 0) =
      .ok [0, 0, 0, 0, 0, 0, 0, 0] :=
  nan_rejection_amended.2.2 (fun _ => [0, 0, 0, 0, 0, 0, 0, 0]) (JSNum.fin 0) rfl

/-! ## Claim C5: no handler is registered for the bool tag -/

/-- The registration sequence executed at module load by the current registry
(the handler set bundled with src/generator/reader.ts): one entry per
`registry.register(tag, ...)` call, in order.  The older handler set in
src/registry.ts registers the same tags minus `tuple` and `nativeEnum`
(plus `nativeEnum` through the separate native-enum module).  Neither sequence
contains `bool`, although `b.bool()` (src/schema.ts) builds a schema with that
tag and the test suite serializes boolean values through it. -/
def registeredTags : List String :=
  ["u8", "u16", "u32", "u64", "u128", "i8", "i16", "i32", "i64", "i128",
   "f32", "f64", "string", "unit", "struct", "vec", "set", "map", "option",
   "enum", "tuple", "array", "nativeEnum"]

/-- `TypeRegistry.getHandler`: the lookup both `Schema.serialize` and
`Schema.deserialize` perform before touching any bytes; an unregistered tag
throws `No handler registered for type: <tag>`. -/
def getHandlerCheck (tag : String) : Except String Unit :=
  if registeredTags.contains tag then .ok ()
  else .error ("No handler registered for type: " ++ tag)

/-- C5: the code contradicts the claim (and its own test suite): the tag
`bool` has no registered handler, so `b.bool().serialize(v)` throws an
unknown-type error at dispatch, before any byte is written. -/
theorem bool_handler_missing :
    registeredTags.contains "bool" = false ∧
    getHandlerCheck "bool" = .error "No handler registered for type: bool" ∧
    getHandlerCheck "u8" = .ok () := by
  refine ⟨by decide, ?_, by rfl⟩
  rw [getHandlerCheck, if_neg (by decide)]
  rfl

/-! ## Claim C9: struct bytes do not depend on runtime key order -/

/-- C9: two runtime objects that map the same field names to the same values
serialize to identical bytes under any struct schema: the writer walks the
schema-declared fields and fetches each value by name, never consulting the
key order of the object. -/
theorem struct_key_order_independence (fields : List (String × Ty))
    (props1 props2 : List (String × JSVal))
    (h : ∀ name, lookupProp props1 name = lookupProp props2 name) :
    writeVal (.struct fields) (.record props1) =
      writeVal (.struct fields) (.record props2) := by
  have hfs : ∀ fs : List (String × Ty), writeFields fs props1 = writeFields fs props2 := by
    intro fs
    induction fs with
    | nil => rw [writeFields, writeFields]
    | cons f fs2 ih =>
        obtain ⟨n, t⟩ := f
        rw [writeFields, writeFields, h n, ih]
  simp only [writeVal]
  exact hfs fields

/-- C9 witness: the same two properties in both orders produce the same
bytes. -/
theorem struct_key_order_independence_witness :
    writeVal (.struct [("x", .u8), ("y", .str)])
        (.record [("x", .num (.fin 1)), ("y", .str [104])]) =
      writeVal (.struct [("x", .u8), ("y", .str)])
        (.record [("y", .str [104]), ("x", .num (.fin 1))]) :=
  struct_key_order_independence [("x", .u8), ("y", .str)]
    [("x", .num (.fin 1)), ("y", .str [104])]
    [("y", .str [104]), ("x", .num (.fin 1))]
    (fun name => by
      by_cases hx : "x" = name
      · subst hx; rfl
      · by_cases hy : "y" = name
        · subst hy; rfl
        · simp [lookupProp, hx, hy])

/-! ## Claim C8: enum wire layout -/

theorem writeUint8_byte (i : Nat) (h : i < 256) : writeUint8 (i : Int) = [i] := by
  have hw : wrapU 1 (i : Int) = i := by
    rw [wrapU]
    have h1 : ((i : Int) % 2 ^ (8 * 1)) = (i : Int) := by
      apply Int.emod_eq_of_lt (by omega)
      norm_num
      omega
    rw [h1, Int.toNat_natCast]
  rw [writeUint8, hw, leBytes, leBytes]
  norm_num
  omega

theorem writeVariantByName_unit (vs : List (Nat × String × Ty)) (name : String)
    (payload : JSVal) (i : Nat) (hfind : findName vs name = some (i, Ty.unit)) :
    writeVariantByName vs name payload = .ok (writeUint8 (i : Int)) := by
  induction vs with
  | nil => simp [findName] at hfind
  | cons p rest ih =>
      obtain ⟨j, m, u⟩ := p
      rw [findName] at hfind
      rw [writeVariantByName]
      by_cases hm : (m == name) = true
      · rw [if_pos hm] at hfind
        rw [hm]
        simp only [Option.some.injEq, Prod.mk.injEq] at hfind
        obtain ⟨hij, hu⟩ := hfind
        subst hij
        subst hu
        simp [isUnitTy]
      · rw [if_neg hm] at hfind
        rw [if_neg hm]
        exact ih hfind

/-- C8: an enum of two unit variants serializes the first variant to the
single byte 0 and the second to the single byte 1; in general, for any enum
schema, a value naming a variant whose payload type is unit serializes to
exactly one byte holding the 0-based declaration index stored for that
variant, with no payload bytes. -/
theorem enum_wire_layout :
    serializeTy (bEnum [("A", .unit), ("B", .unit)]) (.record [("A", .record [])]) =
      .ok [0] ∧
    serializeTy (bEnum [("A", .unit), ("B", .unit)]) (.record [("B", .record [])]) =
      .ok [1] ∧
    (∀ (vs : List (Nat × String × Ty)) (name : String) (payload : JSVal) (i : Nat),
      findName vs name = some (i, Ty.unit) → i < 256 →
      serializeTy (.enum vs) (.record [(name, payload)]) = .ok [i]) := by
  have hgen : ∀ (vs : List (Nat × String × Ty)) (name : String) (payload : JSVal)
      (i : Nat), findName vs name = some (i, Ty.unit) → i < 256 →
      serializeTy (.enum vs) (.record [(name, payload)]) = .ok [i] := by
    intro vs name payload i hfind hlt
    rw [serializeTy, writeVal, writeVariantByName_unit vs name payload i hfind,
      writeUint8_byte i hlt]
  refine ⟨?_, ?_, hgen⟩
  · exact hgen [(0, "A", .unit), (1, "B", .unit)] "A" (.record []) 0 (by rfl) (by norm_num)
  · exact hgen [(0, "A", .unit), (1, "B", .unit)] "B" (.record []) 1 (by rfl) (by norm_num)

/-- C8 witness: the general statement applied to a three-variant enum with a
unit variant in third position. -/
theorem enum_wire_layout_witness :
    serializeTy (.enum [(0, "X", .str), (1, "Y", .unit), (2, "Z", .unit)])
      (.record [("Y", .record [])]) = .ok [1] :=
  enum_wire_layout.2.2 [(0, "X", .str), (1, "Y", .unit), (2, "Z", .unit)] "Y"
    (.record []) 1 (by rfl) (by norm_num)


/-! ## Claim C1: round trip -/

/-- C1 counterexample: under the vec-of-u8 schema, serializing a plain array
succeeds, but deserializing the resulting bytes materialises a `Uint8Array`
(a packed typed array), not an array: the container kind of the input is not
preserved, so `deserialize(serialize(v))` is not structurally equal to `v`
for generic-array inputs to numeric vec schemas. -/
theorem roundtrip_container_kind_counterexample :
    serializeTy (.vec .u8) (.arr [.num (.fin 1), .num (.fin 2)]) =
      .ok [2, 0, 0, 0, 1, 2] ∧
    deserializeTy (.vec .u8) [2, 0, 0, 0, 1, 2] = .ok (.typed .tu8 [1, 2]) ∧
    JSVal.typed .tu8 [1, 2] ≠ .arr [.num (.fin 1), .num (.fin 2)] := by
  refine ⟨?_, ?_, by simp⟩
  · simp [serializeTy, writeVal, writeElems, u8Write, jsLt, jsIsInteger, jsNumToInt,
      writeUint8, writeUint32, leBytes, wrapU]
    norm_num
  · simp [deserializeTy, readVal, readElems, readUint32, readUint8, readUintW,
      readBytes, materializeVec, numericKindOf, typedContent, wrapKind, jsNumToInt,
      lePack, Except.map]

/-- C1 (amended): for every wellformed schema and every value in the canonical
materialised domain (numeric vectors given as packed typed arrays of the
matching kind, sets and maps already deduplicated and in default-sort order,
record properties in schema field order), serialize succeeds and deserialize
returns the value back exactly — structural equality including integer
sign/width and container kind.  On the wider declared domain the round trip
holds only up to the materialisation of numeric vec contents into typed
arrays. -/
theorem roundtrip_amended (t : Ty) (v : JSVal) (hw : Wf t) (hg : Good t v) :
    ∃ bs, serializeTy t v = .ok bs ∧ deserializeTy t bs = .ok v := by
  obtain ⟨bs, hwrite, hread⟩ := rtVal t v [] hw hg
  rw [List.append_nil] at hread
  exact ⟨bs, hwrite, by rw [deserializeTy, hread]; rfl⟩

/-- C1 witness: a concrete struct schema round-trips a concrete record. -/
theorem roundtrip_amended_witness :
    ∃ bs,
      serializeTy (.struct [("name", .str)]) (.record [("name", .str [104, 105])]) =
        .ok bs ∧
      deserializeTy (.struct [("name", .str)]) bs =
        .ok (.record [("name", .str [104, 105])]) :=
  roundtrip_amended (.struct [("name", .str)]) (.record [("name", .str [104, 105])])
    (Wf.struct (by simp) (fun p hp => by
      simp only [List.mem_singleton] at hp
      subst hp
      exact Wf.str))
    (Good.struct (GoodProps.cons (Good.str (by decide) (by decide)) GoodProps.nil))


/-! ## Claim C4: set and map element order -/

/-- The set write handler of src/registry.ts (the iteration-order variant):
`Array.from(value)` with no sort, u32 count, then each element through the
element handler in iteration order. -/
def set0Write (t : Ty) (l : List JSVal) : Except String (List Nat) := do
  let bs ← writeElems t l
  .ok (writeUint32 (l.length : Int) ++ bs)

/-- The map write handler of src/registry.ts: `Array.from(value.entries())`
with no sort, u32 count, then key and value per entry in iteration order. -/
def map0Write (kt vt : Ty) (entries : List (JSVal × JSVal)) :
    Except String (List Nat) := do
  let bs ← writeEntries kt vt entries
  .ok (writeUint32 (entries.length : Int) ++ bs)

/-- C4 counterexample: the current set handler (src/generator/reader.ts)
sorts the elements before writing.  A `Set` iterating as 2, 1 serializes to
count 2 followed by 1 then 2 — the sorted order, not the iteration order
(which the older src/registry.ts handler, `set0Write`, would emit). -/
theorem set_iteration_order_counterexample :
    writeVal (.set .u8) (.setV [.num (.fin 2), .num (.fin 1)]) =
      .ok [2, 0, 0, 0, 1, 2] ∧
    set0Write .u8 [.num (.fin 2), .num (.fin 1)] = .ok [2, 0, 0, 0, 2, 1] ∧
    [2, 0, 0, 0, 1, 2] ≠ ([2, 0, 0, 0, 2, 1] : List Nat) := by
  have hle : jsLeVal (.num (.fin 2)) (.num (.fin 1)) = false := by
    simp only [jsLeVal, jsToStr]
    decide
  refine ⟨?_, ?_, by decide⟩
  · rw [writeVal]
    simp [jsSortVals, List.mergeSort, hle, writeElems, writeVal, u8Write, jsLt,
      jsIsInteger, jsNumToInt, writeUint8, writeUint32, leBytes, wrapU]
    norm_num
  · simp [set0Write, writeElems, writeVal, u8Write, jsLt, jsIsInteger, jsNumToInt,
      writeUint8, writeUint32, leBytes, wrapU]
    norm_num

/-- C4 (amended): both set and map serialization write a u32 little-endian
count first, but the current handlers (src/generator/reader.ts) then write
the elements / entries in the order of `Array.from(...).sort()` — the default
JavaScript sort on ToString images — not in iteration order; the
iteration-order behaviour the claim describes is that of the older
src/registry.ts handlers (`set0Write` / `map0Write`), which emit the elements
exactly as iterated.  The count always counts the original collection. -/
theorem set_map_order_amended (t kt vt : Ty) (l : List JSVal)
    (entries : List (JSVal × JSVal)) (bs bs2 bs3 bs4 : List Nat)
    (hbs : writeElems t (jsSortVals l) = .ok bs)
    (hbs2 : writeEntries kt vt (jsSortEntries entries) = .ok bs2)
    (hbs3 : writeElems t l = .ok bs3)
    (hbs4 : writeEntries kt vt entries = .ok bs4) :
    writeVal (.set t) (.setV l) = .ok (writeUint32 (l.length : Int) ++ bs) ∧
    writeVal (.map kt vt) (.mapV entries) =
      .ok (writeUint32 (entries.length : Int) ++ bs2) ∧
    set0Write t l = .ok (writeUint32 (l.length : Int) ++ bs3) ∧
    map0Write kt vt entries = .ok (writeUint32 (entries.length : Int) ++ bs4) := by
  refine ⟨?_, ?_, ?_, ?_⟩
  · rw [writeVal, hbs]
    rfl
  · rw [writeVal, hbs2]
    rfl
  · rw [set0Write, hbs3]
    rfl
  · rw [map0Write, hbs4]
    rfl

/-- C4 witness: the amended statement at a concrete two-element set and a
concrete two-entry map, both iterating in descending order. -/
theorem set_map_order_amended_witness :
    writeVal (.set .u8) (.setV [.num (.fin 2), .num (.fin 1)]) =
      .ok (writeUint32 ((2 : Nat) : Int) ++ [1, 2]) ∧
    writeVal (.map .u8 .u8) (.mapV [(.num (.fin 2), .num (.fin 9)),
        (.num (.fin 1), .num (.fin 8))]) =
      .ok (writeUint32 ((2 : Nat) : Int) ++ [1, 8, 2, 9]) ∧
    set0Write .u8 [.num (.fin 2), .num (.fin 1)] =
      .ok (writeUint32 ((2 : Nat) : Int) ++ [2, 1]) ∧
    map0Write .u8 .u8 [(.num (.fin 2), .num (.fin 9)), (.num (.fin 1), .num (.fin 8))] =
      .ok (writeUint32 ((2 : Nat) : Int) ++ [2, 9, 1, 8]) :=
  set_map_order_amended .u8 .u8 .u8 [.num (.fin 2), .num (.fin 1)]
    [(.num (.fin 2), .num (.fin 9)), (.num (.fin 1), .num (.fin 8))]
    [1, 2] [1, 8, 2, 9] [2, 1] [2, 9, 1, 8]
    (by
      have hle : jsLeVal (.num (.fin 2)) (.num (.fin 1)) = false := by
        simp only [jsLeVal, jsToStr]
        decide
      simp [jsSortVals, List.mergeSort, hle, writeElems, writeVal, u8Write, jsLt,
        jsIsInteger, jsNumToInt, writeUint8, leBytes, wrapU]
      norm_num)
    (by
      have hle : jsLeEntry (.num (.fin 2), .num (.fin 9)) (.num (.fin 1), .num (.fin 8)) =
          false := by
        simp only [jsLeEntry, entryKey, jsJoinElem, jsToStr]
        decide
      simp [jsSortEntries, List.mergeSort, hle, writeEntries, writeVal, u8Write, jsLt,
        jsIsInteger, jsNumToInt, writeUint8, leBytes, wrapU]
      norm_num)
    (by
      simp [writeElems, writeVal, u8Write, jsLt, jsIsInteger, jsNumToInt, writeUint8,
        leBytes, wrapU]
      norm_num)
    (by
      simp [writeEntries, writeVal, u8Write, jsLt, jsIsInteger, jsNumToInt, writeUint8,
        leBytes, wrapU]
      norm_num)



/-! ## Claim C2: integer boundary exactness -/

/-- C2: for each integer schema, serializing the documented maximum and
minimum succeeds, produces the exact little-endian bytes, and deserializing
those bytes returns the value back; serializing max+1 or min-1 fails.  The
number schemas (u8..u32, i8..i32) take JavaScript numbers, the 64- and
128-bit schemas take bigints. -/
theorem integer_boundary_exactness :
    serializeTy .u8 (.num (.fin 255)) = .ok [255] ∧
    deserializeTy .u8 [255] = .ok (.num (.fin 255)) ∧
    serializeTy .u8 (.num (.fin 0)) = .ok [0] ∧
    deserializeTy .u8 [0] = .ok (.num (.fin 0)) ∧
    (serializeTy .u8 (.num (.fin 256))).isOk = false ∧
    (serializeTy .u8 (.num (.fin (-1)))).isOk = false ∧
    serializeTy .u16 (.num (.fin 65535)) = .ok [255, 255] ∧
    deserializeTy .u16 [255, 255] = .ok (.num (.fin 65535)) ∧
    serializeTy .u16 (.num (.fin 0)) = .ok [0, 0] ∧
    deserializeTy .u16 [0, 0] = .ok (.num (.fin 0)) ∧
    (serializeTy .u16 (.num (.fin 65536))).isOk = false ∧
    (serializeTy .u16 (.num (.fin (-1)))).isOk = false ∧
    serializeTy .u32 (.num (.fin 4294967295)) = .ok [255, 255, 255, 255] ∧
    deserializeTy .u32 [255, 255, 255, 255] = .ok (.num (.fin 4294967295)) ∧
    serializeTy .u32 (.num (.fin 0)) = .ok [0, 0, 0, 0] ∧
    deserializeTy .u32 [0, 0, 0, 0] = .ok (.num (.fin 0)) ∧
    (serializeTy .u32 (.num (.fin 4294967296))).isOk = false ∧
    (serializeTy .u32 (.num (.fin (-1)))).isOk = false ∧
    serializeTy .u64 (.big 18446744073709551615) = .ok [255, 255, 255, 255, 255, 255, 255, 255] ∧
    deserializeTy .u64 [255, 255, 255, 255, 255, 255, 255, 255] = .ok (.big 18446744073709551615) ∧
    serializeTy .u64 (.big 0) = .ok [0, 0, 0, 0, 0, 0, 0, 0] ∧
    deserializeTy .u64 [0, 0, 0, 0, 0, 0, 0, 0] = .ok (.big 0) ∧
    (serializeTy .u64 (.big 18446744073709551616)).isOk = false ∧
    (serializeTy .u64 (.big (-1))).isOk = false ∧
    serializeTy .u128 (.big 340282366920938463463374607431768211455) = .ok [255, 255, 255, 255, 255, 255, 255, 255, 255, 255, 255, 255, 255, 255, 255, 255] ∧
    deserializeTy .u128 [255, 255, 255, 255, 255, 255, 255, 255, 255, 255, 255, 255, 255, 255, 255, 255] = .ok (.big 340282366920938463463374607431768211455) ∧
    serializeTy .u128 (.big 0) = .ok [0, 0, 0, 0, 0, 0, 0, 0, 0, 0, 0, 0, 0, 0, 0, 0] ∧
    deserializeTy .u128 [0, 0, 0, 0, 0, 0, 0, 0, 0, 0, 0, 0, 0, 0, 0, 0] = .ok (.big 0) ∧
    (serializeTy .u128 (.big 340282366920938463463374607431768211456)).isOk = false ∧
    (serializeTy .u128 (.big (-1))).isOk = false ∧
    serializeTy .i8 (.num (.fin 127)) = .ok [127] ∧
    deserializeTy .i8 [127] = .ok (.num (.fin 127)) ∧
    serializeTy .i8 (.num (.fin (-128))) = .ok [128] ∧
    deserializeTy .i8 [128] = .ok (.num (.fin (-128))) ∧
    (serializeTy .i8 (.num (.fin 128))).isOk = false ∧
    (serializeTy .i8 (.num (.fin (-129)))).isOk = false ∧
    serializeTy .i16 (.num (.fin 32767)) = .ok [255, 127] ∧
    deserializeTy .i16 [255, 127] = .ok (.num (.fin 32767)) ∧
    serializeTy .i16 (.num (.fin (-32768))) = .ok [0, 128] ∧
    deserializeTy .i16 [0, 128] = .ok (.num (.fin (-32768))) ∧
    (serializeTy .i16 (.num (.fin 32768))).isOk = false ∧
    (serializeTy .i16 (.num (.fin (-32769)))).isOk = false ∧
    serializeTy .i32 (.num (.fin 2147483647)) = .ok [255, 255, 255, 127] ∧
    deserializeTy .i32 [255, 255, 255, 127] = .ok (.num (.fin 2147483647)) ∧
    serializeTy .i32 (.num (.fin (-2147483648))) = .ok [0, 0, 0, 128] ∧
    deserializeTy .i32 [0, 0, 0, 128] = .ok (.num (.fin (-2147483648))) ∧
    (serializeTy .i32 (.num (.fin 2147483648))).isOk = false ∧
    (serializeTy .i32 (.num (.fin (-2147483649)))).isOk = false ∧
    serializeTy .i64 (.big 9223372036854775807) = .ok [255, 255, 255, 255, 255, 255, 255, 127] ∧
    deserializeTy .i64 [255, 255, 255, 255, 255, 255, 255, 127] = .ok (.big 9223372036854775807) ∧
    serializeTy .i64 (.big (-9223372036854775808)) = .ok [0, 0, 0, 0, 0, 0, 0, 128] ∧
    deserializeTy .i64 [0, 0, 0, 0, 0, 0, 0, 128] = .ok (.big (-9223372036854775808)) ∧
    (serializeTy .i64 (.big 9223372036854775808)).isOk = false ∧
    (serializeTy .i64 (.big (-9223372036854775809))).isOk = false ∧
    serializeTy .i128 (.big 170141183460469231731687303715884105727) = .ok [255, 255, 255, 255, 255, 255, 255, 255, 255, 255, 255, 255, 255, 255, 255, 127] ∧
    deserializeTy .i128 [255, 255, 255, 255, 255, 255, 255, 255, 255, 255, 255, 255, 255, 255, 255, 127] = .ok (.big 170141183460469231731687303715884105727) ∧
    serializeTy .i128 (.big (-170141183460469231731687303715884105728)) = .ok [0, 0, 0, 0, 0, 0, 0, 0, 0, 0, 0, 0, 0, 0, 0, 128] ∧
    deserializeTy .i128 [0, 0, 0, 0, 0, 0, 0, 0, 0, 0, 0, 0, 0, 0, 0, 128] = .ok (.big (-170141183460469231731687303715884105728)) ∧
    (serializeTy .i128 (.big 170141183460469231731687303715884105728)).isOk = false ∧
    (serializeTy .i128 (.big (-170141183460469231731687303715884105729))).isOk = false := by
  refine ⟨?_, ?_, ?_, ?_, ?_, ?_, ?_, ?_, ?_, ?_, ?_, ?_, ?_, ?_, ?_, ?_, ?_, ?_, ?_, ?_, ?_, ?_, ?_, ?_, ?_, ?_, ?_, ?_, ?_, ?_, ?_, ?_, ?_, ?_, ?_, ?_, ?_, ?_, ?_, ?_, ?_, ?_, ?_, ?_, ?_, ?_, ?_, ?_, ?_, ?_, ?_, ?_, ?_, ?_, ?_, ?_, ?_, ?_, ?_, ?_⟩ <;> first
    | (rw [serializeTy, writeVal]; rfl)
    | (rw [deserializeTy, readVal]; rfl)

end Zorsh
